import Mathlib

/-!
# irishub: protocol version 0 life-cycle callbacks and the coinswap genesis

A shallow embedding of

* `newapp/protocol/protocol_v0.go`: `InitChainer`, `BeginBlocker`, `EndBlocker` and the
  combined staking `Hooks`;
* `modules/coinswap/genesis.go`: `InitGenesis`, `ExportGenesis`, `ValidateGenesis`.

The module keepers, the codec and the Go standard library are not part of these two files.
Every call into them is a field of the structure `ProtocolVersion0` (a function of the
application state), and the state carries a log with one entry per call, in the order in
which the calls are made.  A Go `panic` is the `Outcome.panic` result, which keeps the state
reached when the panic is raised.
-/

namespace protocol

/-! ## Data -/

/-- A byte string (`[]byte`), one number per byte. -/
abbrev Bytes := List Nat

/-- The sub-document of one module in the genesis state; its schema belongs to the module. -/
abbrev ModuleData := List Nat

/-- Go `sdk.Tags`: key/value pairs. -/
abbrev Tags := List (String × String)

/-- Go `auth.BaseAccount`, the account as the account keeper stores it. -/
structure BaseAccount where
  Address : Bytes
  Coins : List (String × Nat)
  AccountNumber : Int
  Sequence : Int
deriving DecidableEq, Repr

/-- Go `GenesisAccount`, an account as the genesis document declares it. -/
structure GenesisAccount where
  Address : Bytes
  Coins : List (String × Nat)
  Sequence : Int
  AccountNumber : Int
deriving DecidableEq, Repr

/-- Go `abci.PubKey`; `KeyType` is the field `Type` of the source. -/
structure PubKey where
  KeyType : String
  Data : Bytes
deriving DecidableEq, Repr

/-- Go `abci.ValidatorUpdate`: the validator identity and its power. -/
structure ValidatorUpdate where
  PubKey : PubKey
  Power : Int
deriving DecidableEq, Repr

/-- Go `GenesisState`, the genesis document after `convertToGenesisState`. -/
structure GenesisState where
  Accounts : List GenesisAccount
  AuthData : ModuleData
  StakeData : ModuleData
  MintData : ModuleData
  DistrData : ModuleData
  GovData : ModuleData
  SlashingData : ModuleData
  ServiceData : ModuleData
  ArbitrationData : ModuleData
  GuardianData : ModuleData
  GenTxs : List Bytes
deriving DecidableEq, Repr

/-- Go `auth.FeeGenesisStateConfig`. -/
structure FeeGenesisStateConfig where
  FeeTokenNative : String
  GasPriceThreshold : Nat
deriving DecidableEq, Repr

/-- Go `abci.RequestInitChain`, the two fields `InitChainer` reads. -/
structure RequestInitChain where
  AppStateBytes : Bytes
  Validators : List ValidatorUpdate
deriving DecidableEq, Repr

/-- Go `abci.ResponseInitChain`. -/
structure ResponseInitChain where
  Validators : List ValidatorUpdate
deriving DecidableEq, Repr

/-- Go `sdk.Result` of a transaction delivery: the code and the log line. -/
structure Result where
  Code : Nat
  Log : String
deriving DecidableEq, Repr

/-- Go `Result.IsOK`: the code is `CodeOK`, which is zero. -/
def Result.IsOK (res : Result) : Bool := res.Code == 0

/-- The two subscribers of the combined staking hooks. -/
inductive Subscriber where
  | distr
  | slashing
deriving DecidableEq, Repr

/-- The nine life-cycle events of `sdk.StakingHooks`, with their arguments. -/
inductive StakingEvent where
  | ValidatorCreated (valAddr : Bytes)
  | ValidatorModified (valAddr : Bytes)
  | ValidatorRemoved (consAddr valAddr : Bytes)
  | ValidatorBonded (consAddr valAddr : Bytes)
  | ValidatorPowerDidChange (consAddr valAddr : Bytes)
  | ValidatorBeginUnbonding (consAddr valAddr : Bytes)
  | DelegationCreated (delAddr valAddr : Bytes)
  | DelegationSharesModified (delAddr valAddr : Bytes)
  | DelegationRemoved (delAddr valAddr : Bytes)
deriving DecidableEq, Repr

/-- One entry of the call log: a call made into a keeper, a module or the delivery function,
with the arguments it is given.  `validateGenesis` and `sanityCheck` mark the two checks that
change no store. -/
inductive Event where
  | setAccount (acc : BaseAccount)
  | stakeInitGenesis (data : ModuleData)
  | govInitGenesis (data : ModuleData)
  | authInitGenesis (data : ModuleData) (cfg : FeeGenesisStateConfig)
  | slashingInitGenesis (data stakeData : ModuleData)
  | mintInitGenesis (data : ModuleData)
  | distrInitGenesis (data : ModuleData)
  | validateGenesis
  | deliverTx (bz : Bytes)
  | applyValidatorSetUpdates
  | sanityCheck
  | serviceInitGenesis (data : ModuleData)
  | arbitrationInitGenesis (data : ModuleData)
  | guardianInitGenesis (data : ModuleData)
  | slashingBeginBlocker
  | distrBeginBlocker
  | mintBeginBlocker
  | govEndBlocker
  | stakeEndBlocker
  | serviceEndBlocker
  | hook (who : Subscriber) (ev : StakingEvent)
deriving DecidableEq, Repr

/-- The application state behind `sdk.Context`: the global account-number counter of the
account keeper and the log of the calls made so far. -/
structure State where
  nextAccountNumber : Nat
  log : List Event
deriving DecidableEq, Repr

/-- Append one call to the log. -/
def State.push (st : State) (e : Event) : State :=
  { st with log := st.log ++ [e] }

/-- The result of a call that may panic. -/
inductive Outcome (α : Type) where
  | ok (a : α) (st : State)
  | panic (msg : String) (st : State)
deriving DecidableEq, Repr

/-- The state in which the call ended, returned or panicked. -/
def Outcome.state {α : Type} : Outcome α → State
  | .ok _ st => st
  | .panic _ st => st

/-- The call panicked. -/
def Outcome.isPanic {α : Type} : Outcome α → Bool
  | .ok _ _ => false
  | .panic _ _ => true

/-- The value the call returned, if it returned. -/
def Outcome.value {α : Type} : Outcome α → Option α
  | .ok a _ => some a
  | .panic _ _ => none

/-! ## The Go standard library -/

/-- The inner loop of `insertionSort` in package `sort`:
`for j := i; j > a && data.Less(j, j-1); j-- { data.Swap(j, j-1) }`.
The already sorted prefix is held nearest neighbour first. -/
def sinkLeft {α : Type} (less : α → α → Bool) (x : α) : List α → List α
  | [] => [x]
  | y :: rest => if less x y then y :: sinkLeft less x rest else x :: y :: rest

/-- The outer loop of `insertionSort`: `for i := a + 1; i < b; i++`. -/
def insertionLoop {α : Type} (less : α → α → Bool) : List α → List α → List α
  | done, [] => done.reverse
  | done, x :: rest => insertionLoop less (sinkLeft less x done) rest

/-- Go `sort.Sort` and `sort.Slice` of the standard library, as the insertion sort they run
on short slices.  The sort is a comparison sort driven by `less` alone and is not stable.
On a longer slice Go runs another algorithm, and entries that `less` does not tell apart
may then leave in another order than here; the result is a rearrangement of the input all
the same.  On a list whose entries `less` tells apart, every sort that returns a
rearrangement ordered by `less` returns this same list (`eq_of_perm_of_before`), whatever
the length. -/
def goSort {α : Type} (less : α → α → Bool) (l : List α) : List α :=
  insertionLoop less [] l

/-- Go `bytes.Compare`: lexicographic comparison, `-1`, `0` or `1`. -/
def bytesCompare : Bytes → Bytes → Int
  | [], [] => 0
  | [], _ :: _ => -1
  | _ :: _, [] => 1
  | a :: as, b :: bs =>
    if a < b then -1 else if b < a then 1 else bytesCompare as bs

/-- Go `abci.ValidatorUpdates.Less`, of the ABCI package of the consensus engine:
`bytes.Compare(v[i].PubKey.Data, v[j].PubKey.Data) <= 0`.  It reads the key bytes only. -/
def ValidatorUpdates.Less (a b : ValidatorUpdate) : Bool :=
  decide (bytesCompare a.PubKey.Data b.PubKey.Data ≤ 0)

/-- Go `ValidatorUpdate.Equal`: same public key (type and bytes) and same power. -/
def ValidatorUpdate.Equal (a b : ValidatorUpdate) : Bool := decide (a = b)

/-! ## The protocol and its collaborators -/

/-- Go `auth.StdTx`, a decoded genesis transaction. -/
abbrev StdTx := List Nat

/-- Go `abci.RequestBeginBlock`. -/
structure RequestBeginBlock where
  Hash : Bytes
  Height : Int
deriving DecidableEq, Repr

/-- Go `abci.ResponseBeginBlock`. -/
structure ResponseBeginBlock where
  Tags : Tags
deriving DecidableEq, Repr

/-- Go `abci.RequestEndBlock`. -/
structure RequestEndBlock where
  Height : Int
deriving DecidableEq, Repr

/-- Go `abci.ResponseEndBlock`. -/
structure ResponseEndBlock where
  ValidatorUpdates : List ValidatorUpdate
  Tags : Tags
deriving DecidableEq, Repr

/-- Go `sdk.DeliverTx`, the delivery function handed to `InitChainer`: the result of delivering
the bytes in the current state. -/
abbrev DeliverTxFn := State → Bytes → Result

/-- The receiver `ProtocolVersion0`: what the life-cycle callbacks call outside `protocol_v0.go`.  Each
field is the value the call returns in the current state; the call itself is recorded in the
log by the caller.

* `UnmarshalGenesis`: `cdc.UnmarshalJSON` into `GenesisFileState` followed by
  `convertToGenesisState`;
* `UnmarshalTx`, `MarshalTx`: `cdc.UnmarshalJSON` into `auth.StdTx` and
  `cdc.MustMarshalBinaryLengthPrefixed`;
* `ToAccount`: `GenesisAccount.ToAccount`;
* `IrisCtMinUnitDenom`: `IrisCt.MinUnit.Denom`;
* `stakeInitGenesis`: `stake.InitGenesis`, a validator list or an error;
* `IrisValidateGenesisState`: `none` for `nil`, else the error;
* `ApplyAndReturnValidatorSetUpdates`: the method of the staking keeper;
* `slashingBeginBlocker`: the tags `slashing.BeginBlocker` returns;
* `govEndBlocker`, `serviceEndBlocker`: the tags the end logic of the module emits;
* `stakeEndBlocker`: the validator updates `stake.EndBlocker` returns. -/
structure ProtocolVersion0 where
  UnmarshalGenesis : Bytes → Except String GenesisState
  UnmarshalTx : Bytes → Except String StdTx
  MarshalTx : StdTx → Bytes
  ToAccount : GenesisAccount → BaseAccount
  IrisCtMinUnitDenom : String
  stakeInitGenesis : State → ModuleData → Except String (List ValidatorUpdate)
  IrisValidateGenesisState : GenesisState → Option String
  ApplyAndReturnValidatorSetUpdates : State → List ValidatorUpdate
  slashingBeginBlocker : State → RequestBeginBlock → Tags
  govEndBlocker : State → Tags
  stakeEndBlocker : State → List ValidatorUpdate
  serviceEndBlocker : State → Tags

/-- Go `AccountKeeper.GetNextAccountNumber`: returns the global counter and advances it by one. -/
def GetNextAccountNumber (ctx : State) : Nat × State :=
  (ctx.nextAccountNumber, { ctx with nextAccountNumber := ctx.nextAccountNumber + 1 })

/-- Go `AccountKeeper.SetAccount`: the account is written to the store of the keeper; the
write is recorded in the log. -/
def SetAccount (ctx : State) (acc : BaseAccount) : State :=
  ctx.push (.setAccount acc)

/-- The accounts written by `SetAccount`, in the order of the writes. -/
def State.accounts (st : State) : List BaseAccount :=
  st.log.filterMap fun e =>
    match e with
    | .setAccount acc => some acc
    | _ => none

/-- The transactions handed to the delivery function, in the order of the calls. -/
def State.delivered (st : State) : List Bytes :=
  st.log.filterMap fun e =>
    match e with
    | .deliverTx bz => some bz
    | _ => none

/-! ## `BeginBlocker` and `EndBlocker` -/

/-- Go `ProtocolVersion0.BeginBlocker`.  `tags.ToKVPairs()` keeps the pairs and their order.
The result of `slashing.BeginBlocker` is bound to `tags`; `distr.BeginBlocker` and
`mint.BeginBlocker` are called as statements, so each is a logged call that hands no value
back. -/
def BeginBlocker (p : ProtocolVersion0) (ctx : State) (req : RequestBeginBlock) :
    ResponseBeginBlock × State :=
  let tags := p.slashingBeginBlocker ctx req
  let ctx := ctx.push .slashingBeginBlocker
  -- distribute rewards from previous block
  let ctx := ctx.push .distrBeginBlocker
  -- mint new tokens for this new block
  let ctx := ctx.push .mintBeginBlocker
  ({ Tags := tags }, ctx)

/-- The three begin-phase components `BeginBlocker` calls. -/
inductive BeginComponent where
  | slashing
  | distr
  | mint
deriving DecidableEq, Repr

/-- The logged call of a begin-phase component. -/
def BeginComponent.call : BeginComponent → Event
  | .slashing => .slashingBeginBlocker
  | .distr => .distrBeginBlocker
  | .mint => .mintBeginBlocker

/-- The tags a begin-phase component hands to `BeginBlocker` when called in the state `ctx`:
the return value of `slashing.BeginBlocker`, and no tag for `distr.BeginBlocker` and
`mint.BeginBlocker`, whose calls are statements without a value. -/
def emittedTags (p : ProtocolVersion0) (ctx : State) (req : RequestBeginBlock) :
    BeginComponent → Tags
  | .slashing => p.slashingBeginBlocker ctx req
  | .distr => []
  | .mint => []

/-- Go `ProtocolVersion0.EndBlocker`.  `AppendTags` is `append(tags, tags2...)`. -/
def EndBlocker (p : ProtocolVersion0) (ctx : State) (_req : RequestEndBlock) :
    ResponseEndBlock × State :=
  let tags := p.govEndBlocker ctx
  let ctx := ctx.push .govEndBlocker
  let validatorUpdates := p.stakeEndBlocker ctx
  let ctx := ctx.push .stakeEndBlocker
  let tags := tags ++ p.serviceEndBlocker ctx
  let ctx := ctx.push .serviceEndBlocker
  ({ ValidatorUpdates := validatorUpdates, Tags := tags }, ctx)

/-! ## `InitChainer` -/

/-- The loop `for _, gacc := range genesisState.Accounts` of `InitChainer`. -/
def loadAccounts (p : ProtocolVersion0) : List GenesisAccount → State → State
  | [], ctx => ctx
  | gacc :: rest, ctx =>
    let acc := p.ToAccount gacc
    let (n, ctx) := GetNextAccountNumber ctx
    let acc := { acc with AccountNumber := (n : Int) }
    loadAccounts p rest (SetAccount ctx acc)

/-- The part of `InitChainer` from its first line to the check of `IrisValidateGenesisState`: the genesis
state is decoded, the accounts are sorted and loaded, and the staking, governance, auth,
slashing, minting and distribution genesis are applied. -/
def seedGenesis (p : ProtocolVersion0) (req : RequestInitChain) (ctx : State) :
    Outcome (GenesisState × List ValidatorUpdate) :=
  match p.UnmarshalGenesis req.AppStateBytes with
  | .error err => .panic err ctx
  | .ok genesisState =>
    -- sort by account number to maintain consistency
    let accounts :=
      goSort (fun a b => decide (a.AccountNumber < b.AccountNumber)) genesisState.Accounts
    let genesisState := { genesisState with Accounts := accounts }
    -- load the accounts
    let ctx := loadAccounts p genesisState.Accounts ctx
    -- load the initial stake information
    let res := p.stakeInitGenesis ctx genesisState.StakeData
    let ctx := ctx.push (.stakeInitGenesis genesisState.StakeData)
    match res with
    | .error err => .panic err ctx
    | .ok validators =>
      let ctx := ctx.push (.govInitGenesis genesisState.GovData)
      let feeTokenGensisConfig : FeeGenesisStateConfig :=
        { FeeTokenNative := p.IrisCtMinUnitDenom, GasPriceThreshold := 20000000000 }
      -- load the address to pubkey map
      let ctx := ctx.push (.authInitGenesis genesisState.AuthData feeTokenGensisConfig)
      let ctx :=
        ctx.push (.slashingInitGenesis genesisState.SlashingData genesisState.StakeData)
      let ctx := ctx.push (.mintInitGenesis genesisState.MintData)
      let ctx := ctx.push (.distrInitGenesis genesisState.DistrData)
      let ctx := ctx.push .validateGenesis
      match p.IrisValidateGenesisState genesisState with
      | some err => .panic err ctx
      | none => .ok (genesisState, validators) ctx

/-- The loop `for _, genTx := range genesisState.GenTxs` of `InitChainer`. -/
def deliverGenTxs (p : ProtocolVersion0) (DeliverTx : DeliverTxFn) :
    List Bytes → State → Outcome Unit
  | [], ctx => .ok () ctx
  | genTx :: rest, ctx =>
    match p.UnmarshalTx genTx with
    | .error err => .panic err ctx
    | .ok tx =>
      let bz := p.MarshalTx tx
      let res := DeliverTx ctx bz
      let ctx := ctx.push (.deliverTx bz)
      if !res.IsOK then .panic res.Log ctx
      else deliverGenTxs p DeliverTx rest ctx

/-- The block `if len(genesisState.GenTxs) > 0` of `InitChainer`: the genesis transactions are
delivered and the validator list is taken anew from the staking keeper. -/
def replayGenTxs (p : ProtocolVersion0) (DeliverTx : DeliverTxFn) (genesisState : GenesisState)
    (validators : List ValidatorUpdate) (ctx : State) : Outcome (List ValidatorUpdate) :=
  if genesisState.GenTxs.length > 0 then
    match deliverGenTxs p DeliverTx genesisState.GenTxs ctx with
    | .panic msg ctx => .panic msg ctx
    | .ok _ ctx =>
      let validators := p.ApplyAndReturnValidatorSetUpdates ctx
      .ok validators (ctx.push .applyValidatorSetUpdates)
  else .ok validators ctx

/-- The loop `for i, val := range validators` of the sanity check: the index of the first
position at which `val.Equal(req.Validators[i])` fails.  An index past the end of
`req.Validators` is a run-time panic in Go and counts as a failure here. -/
def firstMismatch : Nat → List ValidatorUpdate → List ValidatorUpdate → Option Nat
  | _, [], _ => none
  | i, _ :: _, [] => some i
  | i, val :: vals, r :: reqs =>
    if !val.Equal r then some i else firstMismatch (i + 1) vals reqs

/-- The block `// sanity check` of `InitChainer`.  `sort.Sort` sorts `validators` in place, so
the list that leaves the block is the sorted one. -/
def sanityCheck (reqValidators validators : List ValidatorUpdate) (ctx : State) :
    Outcome (List ValidatorUpdate) :=
  if reqValidators.length > 0 then
    let ctx := ctx.push .sanityCheck
    if reqValidators.length != validators.length then
      .panic ("len(RequestInitChain.Validators) != len(validators) ("
        ++ toString reqValidators.length ++ " != " ++ toString validators.length ++ ")") ctx
    else
      let reqValidators := goSort ValidatorUpdates.Less reqValidators
      let validators := goSort ValidatorUpdates.Less validators
      match firstMismatch 0 validators reqValidators with
      | some i =>
        .panic ("validators[" ++ toString i ++ "] != req.Validators[" ++ toString i ++ "] ") ctx
      | none => .ok validators ctx
  else .ok validators ctx

/-- The last three genesis calls of `InitChainer`: service, arbitration, guardian. -/
def finishGenesis (genesisState : GenesisState) (ctx : State) : State :=
  let ctx := ctx.push (.serviceInitGenesis genesisState.ServiceData)
  let ctx := ctx.push (.arbitrationInitGenesis genesisState.ArbitrationData)
  ctx.push (.guardianInitGenesis genesisState.GuardianData)

/-- Go `ProtocolVersion0.InitChainer`. -/
def InitChainer (p : ProtocolVersion0) (ctx : State) (DeliverTx : DeliverTxFn)
    (req : RequestInitChain) : Outcome ResponseInitChain :=
  match seedGenesis p req ctx with
  | .panic msg ctx => .panic msg ctx
  | .ok (genesisState, validators) ctx =>
    match replayGenTxs p DeliverTx genesisState validators ctx with
    | .panic msg ctx => .panic msg ctx
    | .ok validators ctx =>
      match sanityCheck req.Validators validators ctx with
      | .panic msg ctx => .panic msg ctx
      | .ok validators ctx =>
        .ok { Validators := validators } (finishGenesis genesisState ctx)

/-! ## Combined staking hooks -/

/-- Go `sdk.StakingHooks`, the interface `distr.Hooks` and `slashing.Hooks` implement: what each
method does to the state. -/
structure StakingHooks where
  OnValidatorCreated : State → Bytes → State
  OnValidatorModified : State → Bytes → State
  OnValidatorRemoved : State → Bytes → Bytes → State
  OnValidatorBonded : State → Bytes → Bytes → State
  OnValidatorPowerDidChange : State → Bytes → Bytes → State
  OnValidatorBeginUnbonding : State → Bytes → Bytes → State
  OnDelegationCreated : State → Bytes → Bytes → State
  OnDelegationSharesModified : State → Bytes → Bytes → State
  OnDelegationRemoved : State → Bytes → Bytes → State

/-- Combined Staking Hooks. -/
structure Hooks where
  dh : StakingHooks
  sh : StakingHooks

/-- Go `NewHooks`. -/
def NewHooks (dh sh : StakingHooks) : Hooks := { dh := dh, sh := sh }

/-- Go `Hooks.OnValidatorCreated`. -/
def Hooks.OnValidatorCreated (h : Hooks) (ctx : State) (valAddr : Bytes) : State :=
  let ctx := h.dh.OnValidatorCreated ctx valAddr
  h.sh.OnValidatorCreated ctx valAddr

/-- Go `Hooks.OnValidatorModified`. -/
def Hooks.OnValidatorModified (h : Hooks) (ctx : State) (valAddr : Bytes) : State :=
  let ctx := h.dh.OnValidatorModified ctx valAddr
  h.sh.OnValidatorModified ctx valAddr

/-- Go `Hooks.OnValidatorRemoved`. -/
def Hooks.OnValidatorRemoved (h : Hooks) (ctx : State) (consAddr valAddr : Bytes) : State :=
  let ctx := h.dh.OnValidatorRemoved ctx consAddr valAddr
  h.sh.OnValidatorRemoved ctx consAddr valAddr

/-- Go `Hooks.OnValidatorBonded`. -/
def Hooks.OnValidatorBonded (h : Hooks) (ctx : State) (consAddr valAddr : Bytes) : State :=
  let ctx := h.dh.OnValidatorBonded ctx consAddr valAddr
  h.sh.OnValidatorBonded ctx consAddr valAddr

/-- Go `Hooks.OnValidatorPowerDidChange`. -/
def Hooks.OnValidatorPowerDidChange (h : Hooks) (ctx : State) (consAddr valAddr : Bytes) :
    State :=
  let ctx := h.dh.OnValidatorPowerDidChange ctx consAddr valAddr
  h.sh.OnValidatorPowerDidChange ctx consAddr valAddr

/-- Go `Hooks.OnValidatorBeginUnbonding`. -/
def Hooks.OnValidatorBeginUnbonding (h : Hooks) (ctx : State) (consAddr valAddr : Bytes) :
    State :=
  let ctx := h.dh.OnValidatorBeginUnbonding ctx consAddr valAddr
  h.sh.OnValidatorBeginUnbonding ctx consAddr valAddr

/-- Go `Hooks.OnDelegationCreated`. -/
def Hooks.OnDelegationCreated (h : Hooks) (ctx : State) (delAddr valAddr : Bytes) : State :=
  let ctx := h.dh.OnDelegationCreated ctx delAddr valAddr
  h.sh.OnDelegationCreated ctx delAddr valAddr

/-- Go `Hooks.OnDelegationSharesModified`. -/
def Hooks.OnDelegationSharesModified (h : Hooks) (ctx : State) (delAddr valAddr : Bytes) :
    State :=
  let ctx := h.dh.OnDelegationSharesModified ctx delAddr valAddr
  h.sh.OnDelegationSharesModified ctx delAddr valAddr

/-- Go `Hooks.OnDelegationRemoved`. -/
def Hooks.OnDelegationRemoved (h : Hooks) (ctx : State) (delAddr valAddr : Bytes) : State :=
  let ctx := h.dh.OnDelegationRemoved ctx delAddr valAddr
  h.sh.OnDelegationRemoved ctx delAddr valAddr

/-- The method of a subscriber that the staking keeper calls for an event. -/
def StakingHooks.on (s : StakingHooks) (ctx : State) : StakingEvent → State
  | .ValidatorCreated valAddr => s.OnValidatorCreated ctx valAddr
  | .ValidatorModified valAddr => s.OnValidatorModified ctx valAddr
  | .ValidatorRemoved consAddr valAddr => s.OnValidatorRemoved ctx consAddr valAddr
  | .ValidatorBonded consAddr valAddr => s.OnValidatorBonded ctx consAddr valAddr
  | .ValidatorPowerDidChange consAddr valAddr => s.OnValidatorPowerDidChange ctx consAddr valAddr
  | .ValidatorBeginUnbonding consAddr valAddr => s.OnValidatorBeginUnbonding ctx consAddr valAddr
  | .DelegationCreated delAddr valAddr => s.OnDelegationCreated ctx delAddr valAddr
  | .DelegationSharesModified delAddr valAddr => s.OnDelegationSharesModified ctx delAddr valAddr
  | .DelegationRemoved delAddr valAddr => s.OnDelegationRemoved ctx delAddr valAddr

/-- The method of the combined hooks that the staking keeper calls for an event. -/
def Hooks.on (h : Hooks) (ctx : State) : StakingEvent → State
  | .ValidatorCreated valAddr => h.OnValidatorCreated ctx valAddr
  | .ValidatorModified valAddr => h.OnValidatorModified ctx valAddr
  | .ValidatorRemoved consAddr valAddr => h.OnValidatorRemoved ctx consAddr valAddr
  | .ValidatorBonded consAddr valAddr => h.OnValidatorBonded ctx consAddr valAddr
  | .ValidatorPowerDidChange consAddr valAddr => h.OnValidatorPowerDidChange ctx consAddr valAddr
  | .ValidatorBeginUnbonding consAddr valAddr => h.OnValidatorBeginUnbonding ctx consAddr valAddr
  | .DelegationCreated delAddr valAddr => h.OnDelegationCreated ctx delAddr valAddr
  | .DelegationSharesModified delAddr valAddr => h.OnDelegationSharesModified ctx delAddr valAddr
  | .DelegationRemoved delAddr valAddr => h.OnDelegationRemoved ctx delAddr valAddr

/-- A subscriber whose every method records the call, with its arguments, in the log. -/
def recorder (who : Subscriber) : StakingHooks where
  OnValidatorCreated ctx valAddr := ctx.push (.hook who (.ValidatorCreated valAddr))
  OnValidatorModified ctx valAddr := ctx.push (.hook who (.ValidatorModified valAddr))
  OnValidatorRemoved ctx consAddr valAddr :=
    ctx.push (.hook who (.ValidatorRemoved consAddr valAddr))
  OnValidatorBonded ctx consAddr valAddr :=
    ctx.push (.hook who (.ValidatorBonded consAddr valAddr))
  OnValidatorPowerDidChange ctx consAddr valAddr :=
    ctx.push (.hook who (.ValidatorPowerDidChange consAddr valAddr))
  OnValidatorBeginUnbonding ctx consAddr valAddr :=
    ctx.push (.hook who (.ValidatorBeginUnbonding consAddr valAddr))
  OnDelegationCreated ctx delAddr valAddr :=
    ctx.push (.hook who (.DelegationCreated delAddr valAddr))
  OnDelegationSharesModified ctx delAddr valAddr :=
    ctx.push (.hook who (.DelegationSharesModified delAddr valAddr))
  OnDelegationRemoved ctx delAddr valAddr :=
    ctx.push (.hook who (.DelegationRemoved delAddr valAddr))

/-! ## Notions used in the statements -/

/-- The order a sort leaves between two entries: `a` goes before `b` and not `b` before `a`. -/
def Before {α : Type} (less : α → α → Bool) (a b : α) : Prop :=
  less a b = true ∧ less b a = false

/-- Two entries are told apart by `less`: exactly one goes before the other. -/
def Apart {α : Type} (less : α → α → Bool) (a b : α) : Prop :=
  less a b = !less b a

/-- The bytes `InitChainer` hands to the delivery function for one genesis transaction:
`cdc.UnmarshalJSON` then `cdc.MustMarshalBinaryLengthPrefixed`; `none` when decoding fails. -/
def encodeTx (p : ProtocolVersion0) (genTx : Bytes) : Option Bytes :=
  match p.UnmarshalTx genTx with
  | .ok tx => some (p.MarshalTx tx)
  | .error _ => none

/-- The genesis step a logged call belongs to: accounts 0, staking 1, governance 2, auth/fee 3,
slashing 4, minting 5, distribution 6, structural validation 7, genesis-transaction replay 8
(the deliveries and the recomputation of the validator set), validator-set reconciliation 9,
service 10, arbitration 11, guardian 12.  Calls that are no genesis step have number 13. -/
def Event.step : Event → Nat
  | .setAccount _ => 0
  | .stakeInitGenesis _ => 1
  | .govInitGenesis _ => 2
  | .authInitGenesis _ _ => 3
  | .slashingInitGenesis _ _ => 4
  | .mintInitGenesis _ => 5
  | .distrInitGenesis _ => 6
  | .validateGenesis => 7
  | .deliverTx _ => 8
  | .applyValidatorSetUpdates => 8
  | .sanityCheck => 9
  | .serviceInitGenesis _ => 10
  | .arbitrationInitGenesis _ => 11
  | .guardianInitGenesis _ => 12
  | _ => 13

/-- Two logged calls, the first made before the second, respect the order of the genesis
steps: the step of the first is not later than the step of the second, and only the account
writes and the replay calls may belong to one and the same step. -/
def StepOrder (a b : Event) : Prop :=
  a.step ≤ b.step ∧ (a.step = b.step → a.step = 0 ∨ a.step = 8)

/-- The state `st` has grown from `ctx` by logged calls that follow the order of the genesis
steps and belong to the steps from `lo` up to, not including, `hi`. -/
def Grow (lo hi : Nat) (ctx st : State) : Prop :=
  ∃ evs, st.log = ctx.log ++ evs ∧ evs.Pairwise StepOrder ∧ ∀ e ∈ evs, lo ≤ e.step ∧ e.step < hi

/-! ## A concrete protocol, on which the statements are evaluated -/

/-- A genesis codec for the examples: the first byte is the number of accounts, the next
bytes are their declared account numbers, the remaining bytes are one genesis transaction
each; the empty document does not decode. -/
def demoDecode : Bytes → Except String GenesisState
  | [] => .error "unexpected end of JSON input"
  | n :: rest =>
    .ok
      { Accounts := (rest.take n).map fun d =>
          { Address := [d], Coins := [], Sequence := 0, AccountNumber := (d : Int) }
        AuthData := [], StakeData := [], MintData := [], DistrData := [], GovData := []
        SlashingData := [], ServiceData := [], ArbitrationData := [], GuardianData := []
        GenTxs := (rest.drop n).map fun b => [b] }

/-- A protocol for the examples: the staking genesis bonds nobody, every delivered genesis
transaction bonds one validator of power 10 whose key is the transaction, and the
transaction `[0]` does not decode. -/
def demo : ProtocolVersion0 where
  UnmarshalGenesis := demoDecode
  UnmarshalTx bz := if bz = [0] then .error "invalid transaction" else .ok bz
  MarshalTx tx := tx
  ToAccount ga :=
    { Address := ga.Address, Coins := ga.Coins, AccountNumber := ga.AccountNumber,
      Sequence := ga.Sequence }
  IrisCtMinUnitDenom := "iris-atto"
  stakeInitGenesis _ _ := .ok []
  IrisValidateGenesisState _ := none
  ApplyAndReturnValidatorSetUpdates st :=
    st.delivered.map fun bz => { PubKey := { KeyType := "ed25519", Data := bz }, Power := 10 }
  slashingBeginBlocker _ _ := [("action", "slashing")]
  govEndBlocker _ := [("action", "gov")]
  stakeEndBlocker _ := [{ PubKey := { KeyType := "ed25519", Data := [7] }, Power := 10 }]
  serviceEndBlocker _ := [("action", "service")]

/-- A delivery function for the examples: the transaction `[9]` is rejected. -/
def demoDeliverTx : DeliverTxFn := fun _ bz =>
  if bz = [9] then { Code := 1, Log := "delivery failed" } else { Code := 0, Log := "" }

/-- The state of a chain before `InitChainer`: counter 0, nothing logged. -/
def freshState : State := { nextAccountNumber := 0, log := [] }

/-- A validator update with the key bytes `[k]`. -/
def demoValidator (k : Nat) (power : Int) : ValidatorUpdate :=
  { PubKey := { KeyType := "ed25519", Data := [k] }, Power := power }

/-- The protocol `demo` with a staking genesis that returns the same key twice, with the
powers 2 and 1. -/
def demoTwice : ProtocolVersion0 :=
  { demo with stakeInitGenesis := fun _ _ => .ok [demoValidator 7 2, demoValidator 7 1] }

end protocol

namespace coinswap

/-- The coinswap `Keeper`, over the store behind `sdk.Context` and the `Params`
type: the two methods the genesis code calls. -/
structure Keeper (Store Params : Type) where
  SetParams : Store → Params → Store
  GetParams : Store → Params

/-- GenesisState - coinswap genesis state. -/
structure GenesisState (Params : Type) where
  Params : Params
deriving DecidableEq, Repr

/-- The result of `InitGenesis`: the store after the call, or a panic with the store in which
it is raised. -/
inductive InitResult (Store : Type) where
  | done (ctx : Store)
  | panic (msg : String) (ctx : Store)
deriving DecidableEq, Repr

/-- NewGenesisState is the constructor function for GenesisState. -/
def NewGenesisState {Params : Type} (params : Params) : GenesisState Params :=
  { Params := params }

/-- ValidateGenesis - placeholder function.  `ValidateParams` is declared outside
`genesis.go`; `none` is the `nil` error. -/
def ValidateGenesis {Params : Type} (ValidateParams : Params → Option String)
    (data : GenesisState Params) : Option String :=
  match ValidateParams data.Params with
  | some err => some err
  | none => none

/-- InitGenesis new coinswap genesis. -/
def InitGenesis {Store Params : Type} (ValidateParams : Params → Option String) (ctx : Store)
    (k : Keeper Store Params) (data : GenesisState Params) : InitResult Store :=
  match ValidateGenesis ValidateParams data with
  | some err => .panic ("panic for ValidateGenesis," ++ err) ctx
  | none => .done (k.SetParams ctx data.Params)

/-- ExportGenesis returns a GenesisState for a given context and keeper. -/
def ExportGenesis {Store Params : Type} (ctx : Store) (keeper : Keeper Store Params) :
    GenesisState Params :=
  NewGenesisState (keeper.GetParams ctx)

/-- A keeper for the examples: the store holds the params last set, if any, the params are
one number, and reading an empty store gives 0. -/
def demoKeeper : Keeper (Option Nat) Nat where
  SetParams _ params := some params
  GetParams ctx := ctx.getD 0

/-- A `ValidateParams` for the examples: the number 0 is rejected. -/
def demoValidateParams (params : Nat) : Option String :=
  if params = 0 then some "fee must be positive" else none

end coinswap

namespace protocol

/-! ## The sort -/

theorem sinkLeft_perm {α : Type} (less : α → α → Bool) (x : α) (l : List α) :
    (sinkLeft less x l).Perm (x :: l) := by
  induction l with
  | nil => simp [sinkLeft]
  | cons y rest ih =>
    unfold sinkLeft
    split
    · exact (List.Perm.cons y ih).trans (List.Perm.swap x y rest)
    · exact List.Perm.refl _

theorem insertionLoop_perm {α : Type} (less : α → α → Bool) (rest : List α) :
    ∀ done : List α, (insertionLoop less done rest).Perm (done ++ rest) := by
  induction rest with
  | nil => intro done; simp [insertionLoop]
  | cons x rest ih =>
    intro done
    unfold insertionLoop
    refine (ih _).trans ?_
    refine (List.Perm.append_right rest (sinkLeft_perm less x done)).trans ?_
    simpa using (@List.perm_middle _ x done rest).symm

theorem goSort_perm {α : Type} (less : α → α → Bool) (l : List α) :
    (goSort less l).Perm l := by
  simpa [goSort] using insertionLoop_perm less l []

theorem Apart.symm {α : Type} {less : α → α → Bool} {a b : α} (h : Apart less a b) :
    Apart less b a := by
  unfold Apart at *
  cases hab : less a b <;> cases hba : less b a <;> simp_all

theorem sinkLeft_sorted {α : Type} (less : α → α → Bool)
    (htrans : ∀ a b c, less a b = true → less b c = true → less a c = true) (x : α) :
    ∀ done : List α, done.Pairwise (fun a b => Before less b a) →
      (∀ y ∈ done, Apart less x y) →
      (sinkLeft less x done).Pairwise (fun a b => Before less b a) := by
  intro done
  induction done with
  | nil => intro _ _; simp [sinkLeft]
  | cons y rest ih =>
    intro hp hx
    have hy : Apart less x y := hx y (List.mem_cons_self _ _)
    rw [List.pairwise_cons] at hp
    unfold sinkLeft
    split
    · rename_i hlt
      rw [List.pairwise_cons]
      refine ⟨?_, ih hp.2 (fun z hz => hx z (List.mem_cons_of_mem _ hz))⟩
      intro z hz
      rcases List.mem_cons.mp ((sinkLeft_perm less x rest).subset hz) with rfl | hz
      · unfold Apart at hy
        exact ⟨hlt, by simpa [hlt] using hy.symm⟩
      · exact hp.1 z hz
    · rename_i hlt
      have hxy : less x y = false := by simpa using hlt
      have hyx : less y x = true := by
        unfold Apart at hy
        rw [hxy] at hy
        cases h : less y x
        · rw [h] at hy
          cases hy
        · rfl
      rw [List.pairwise_cons]
      refine ⟨?_, List.pairwise_cons.mpr hp⟩
      intro z hz
      rcases List.mem_cons.mp hz with rfl | hz
      · exact ⟨hyx, hxy⟩
      · have hzy := hp.1 z hz
        refine ⟨htrans z y x hzy.1 hyx, ?_⟩
        cases hxz : less x z
        · rfl
        · have := htrans x z y hxz hzy.1
          rw [hxy] at this
          cases this

theorem insertionLoop_sorted {α : Type} (less : α → α → Bool)
    (htrans : ∀ a b c, less a b = true → less b c = true → less a c = true) (rest : List α) :
    ∀ done : List α, done.Pairwise (fun a b => Before less b a) →
      rest.Pairwise (Apart less) → (∀ x ∈ rest, ∀ y ∈ done, Apart less x y) →
      (insertionLoop less done rest).Pairwise (Before less) := by
  induction rest with
  | nil =>
    intro done hd _ _
    simpa [insertionLoop, List.pairwise_reverse] using hd
  | cons x rest ih =>
    intro done hd hr hx
    rw [List.pairwise_cons] at hr
    unfold insertionLoop
    refine ih _ (sinkLeft_sorted less htrans x done hd (hx x (List.mem_cons_self _ _))) hr.2 ?_
    intro z hz y hy
    rcases List.mem_cons.mp ((sinkLeft_perm less x done).subset hy) with rfl | hy
    · exact (hr.1 z hz).symm
    · exact hx z (List.mem_cons_of_mem _ hz) y hy

/-- On a list whose entries `less` tells apart, the sort leaves every entry before the ones
that follow it. -/
theorem goSort_sorted {α : Type} (less : α → α → Bool)
    (htrans : ∀ a b c, less a b = true → less b c = true → less a c = true) (l : List α)
    (hl : l.Pairwise (Apart less)) : (goSort less l).Pairwise (Before less) :=
  insertionLoop_sorted less htrans l [] List.Pairwise.nil hl (by simp)

/-- Two orderings of the same entries that both respect `Before` are the same list. -/
theorem eq_of_perm_of_before {α : Type} (less : α → α → Bool) {l₁ l₂ : List α}
    (hp : l₁.Perm l₂) (h₁ : l₁.Pairwise (Before less)) (h₂ : l₂.Pairwise (Before less)) :
    l₁ = l₂ := by
  haveI : IsAntisymm α (Before less) :=
    ⟨fun a b hab hba => by
      have h1 := hab.1
      have h2 := hba.2
      rw [h1] at h2
      cases h2⟩
  exact List.eq_of_perm_of_sorted hp h₁ h₂

/-- The sort of a list whose entries `less` tells apart does not depend on the order in
which the entries come. -/
theorem goSort_perm_invariant {α : Type} (less : α → α → Bool)
    (htrans : ∀ a b c, less a b = true → less b c = true → less a c = true) {l₁ l₂ : List α}
    (hp : l₁.Perm l₂) (hl : l₁.Pairwise (Apart less)) : goSort less l₁ = goSort less l₂ := by
  have hl₂ : l₂.Pairwise (Apart less) :=
    (hp.pairwise_iff (fun {a b} h => Apart.symm h)).mp hl
  exact eq_of_perm_of_before less
    (((goSort_perm less l₁).trans hp).trans (goSort_perm less l₂).symm)
    (goSort_sorted less htrans l₁ hl) (goSort_sorted less htrans l₂ hl₂)

/-! ## The accounts -/

/-- The comparison `InitChainer` hands to `sort.Slice`. -/
theorem accountLess_trans (a b c : GenesisAccount)
    (hab : decide (a.AccountNumber < b.AccountNumber) = true)
    (hbc : decide (b.AccountNumber < c.AccountNumber) = true) :
    decide (a.AccountNumber < c.AccountNumber) = true := by
  simp only [decide_eq_true_eq] at *
  omega

theorem accounts_apart (l : List GenesisAccount)
    (h : (l.map (fun a => a.AccountNumber)).Nodup) :
    l.Pairwise (Apart (fun a b : GenesisAccount => decide (a.AccountNumber < b.AccountNumber))) := by
  have h' : l.Pairwise (fun a b => a.AccountNumber ≠ b.AccountNumber) := by
    simpa [List.Nodup, List.pairwise_map] using h
  refine h'.imp ?_
  intro a b hne
  unfold Apart
  by_cases h1 : a.AccountNumber < b.AccountNumber
  · have h2 : ¬ b.AccountNumber < a.AccountNumber := by omega
    simp [h1, h2]
  · have h2 : b.AccountNumber < a.AccountNumber := by omega
    simp [h1, h2]

theorem sortedAccounts_increasing (l : List GenesisAccount)
    (h : (l.map (fun a => a.AccountNumber)).Nodup) :
    (goSort (fun a b : GenesisAccount => decide (a.AccountNumber < b.AccountNumber)) l).Pairwise
      (fun a b => a.AccountNumber < b.AccountNumber) := by
  refine (goSort_sorted _ accountLess_trans l (accounts_apart l h)).imp ?_
  intro a b hab
  simpa using hab.1

theorem loadAccounts_log (p : ProtocolVersion0) (l : List GenesisAccount) :
    ∀ ctx : State, (loadAccounts p l ctx).log = ctx.log ++
      (l.enumFrom ctx.nextAccountNumber).map (fun kg =>
        Event.setAccount { p.ToAccount kg.2 with AccountNumber := (kg.1 : Int) }) := by
  induction l with
  | nil => intro ctx; simp [loadAccounts]
  | cons gacc rest ih =>
    intro ctx
    simp [loadAccounts, GetNextAccountNumber, SetAccount, State.push, ih]

theorem loadAccounts_counter (p : ProtocolVersion0) (l : List GenesisAccount) :
    ∀ ctx : State,
      (loadAccounts p l ctx).nextAccountNumber = ctx.nextAccountNumber + l.length := by
  induction l with
  | nil => intro ctx; simp [loadAccounts]
  | cons gacc rest ih =>
    intro ctx
    simp [loadAccounts, GetNextAccountNumber, SetAccount, State.push, ih]
    omega

theorem loadAccounts_accounts (p : ProtocolVersion0) (l : List GenesisAccount) (ctx : State) :
    (loadAccounts p l ctx).accounts = ctx.accounts ++
      (l.enumFrom ctx.nextAccountNumber).map (fun kg =>
        { p.ToAccount kg.2 with AccountNumber := (kg.1 : Int) }) := by
  simp only [State.accounts, loadAccounts_log, List.filterMap_append, List.filterMap_map]
  congr 1
  exact congrFun (List.filterMap_eq_map _) _

/-- In a strictly increasing list the entry at position `k` has exactly `k` entries below. -/
theorem countP_lt_of_increasing (s : List GenesisAccount)
    (hs : s.Pairwise (fun a b => a.AccountNumber < b.AccountNumber)) :
    ∀ (k : Nat) (gacc : GenesisAccount), s[k]? = some gacc →
      s.countP (fun a => decide (a.AccountNumber < gacc.AccountNumber)) = k := by
  induction s with
  | nil => intro k gacc h; simp at h
  | cons a t ih =>
    intro k gacc h
    rw [List.pairwise_cons] at hs
    cases k with
    | zero =>
      simp only [List.getElem?_cons_zero, Option.some.injEq] at h
      subst h
      rw [List.countP_eq_zero.mpr]
      intro b hb
      rcases List.mem_cons.mp hb with rfl | hb
      · simp
      · have := hs.1 b hb
        simp only [decide_eq_true_eq]
        omega
    | succ k =>
      simp only [List.getElem?_cons_succ] at h
      have hmem : gacc ∈ t := List.getElem?_mem h
      have hlt := hs.1 gacc hmem
      rw [List.countP_cons, ih hs.2 k gacc h]
      simp [hlt]

/-! ## The order of the genesis steps -/

theorem Grow.refl (lo hi : Nat) (ctx : State) : Grow lo hi ctx ctx :=
  ⟨[], by simp, List.Pairwise.nil, by simp⟩

theorem Grow.trans {lo hi lo' hi' : Nat} {a b c : State} (L H : Nat)
    (h₁ : Grow lo hi a b) (h₂ : Grow lo' hi' b c)
    (hsteps : ∀ x y, lo ≤ x → x < hi → lo' ≤ y → y < hi' →
      x ≤ y ∧ (x = y → x = 0 ∨ x = 8))
    (hL : L ≤ lo ∧ L ≤ lo') (hH : hi ≤ H ∧ hi' ≤ H) : Grow L H a c := by
  obtain ⟨e₁, hlog₁, hp₁, hb₁⟩ := h₁
  obtain ⟨e₂, hlog₂, hp₂, hb₂⟩ := h₂
  refine ⟨e₁ ++ e₂, by rw [hlog₂, hlog₁, List.append_assoc], ?_, ?_⟩
  · rw [List.pairwise_append]
    refine ⟨hp₁, hp₂, ?_⟩
    intro x hx y hy
    exact hsteps x.step y.step (hb₁ x hx).1 (hb₁ x hx).2 (hb₂ y hy).1 (hb₂ y hy).2
  · intro e he
    rcases List.mem_append.mp he with he | he
    · have := hb₁ e he
      omega
    · have := hb₂ e he
      omega

theorem Grow.push (ctx : State) (e : Event) : Grow e.step (e.step + 1) ctx (ctx.push e) :=
  ⟨[e], rfl, List.pairwise_singleton _ _, by simp⟩

theorem Grow.mono {lo hi L H : Nat} {a b : State} (h : Grow lo hi a b) (hL : L ≤ lo)
    (hH : hi ≤ H) : Grow L H a b := by
  obtain ⟨evs, hlog, hp, hb⟩ := h
  refine ⟨evs, hlog, hp, ?_⟩
  intro e he
  have := hb e he
  omega

theorem loadAccounts_grow (p : ProtocolVersion0) (l : List GenesisAccount) (ctx : State) :
    Grow 0 1 ctx (loadAccounts p l ctx) := by
  refine ⟨_, loadAccounts_log p l ctx, ?_, ?_⟩
  · apply List.pairwise_of_forall_mem_list
    intro a ha b hb
    obtain ⟨x, -, rfl⟩ := List.mem_map.mp ha
    obtain ⟨y, -, rfl⟩ := List.mem_map.mp hb
    simp [StepOrder, Event.step]
  · intro e he
    obtain ⟨x, -, rfl⟩ := List.mem_map.mp he
    simp [Event.step]

theorem Grow.then_push {lo hi : Nat} {a b : State} (h : Grow lo hi a b) (e : Event) (H : Nat)
    (h₀ : lo ≤ e.step) (h₁ : hi ≤ e.step) (h₂ : e.step < H) : Grow lo H a (b.push e) := by
  refine Grow.trans lo H h (Grow.push b e) ?_ ?_ ?_
  · intro x y; omega
  · exact ⟨Nat.le_refl _, h₀⟩
  · omega

theorem seedGenesis_grow_after_accounts (p : ProtocolVersion0) (req : RequestInitChain)
    (ctx : State) (g : GenesisState) (hdec : p.UnmarshalGenesis req.AppStateBytes = .ok g) :
    Grow 1 8
      (loadAccounts p
        (goSort (fun a b => decide (a.AccountNumber < b.AccountNumber)) g.Accounts) ctx)
      (seedGenesis p req ctx).state := by
  unfold seedGenesis
  rw [hdec]
  have h₀ := Grow.refl 1 1 (loadAccounts p
      (goSort (fun a b => decide (a.AccountNumber < b.AccountNumber)) g.Accounts) ctx)
  have h₁ := h₀.then_push (.stakeInitGenesis g.StakeData) 2 (by simp [Event.step])
      (by simp [Event.step]) (by simp [Event.step])
  have h₂ := h₁.then_push (.govInitGenesis g.GovData) 3 (by simp [Event.step])
      (by simp [Event.step]) (by simp [Event.step])
  have h₃ := h₂.then_push (.authInitGenesis g.AuthData
      { FeeTokenNative := p.IrisCtMinUnitDenom, GasPriceThreshold := 20000000000 }) 4
      (by simp [Event.step]) (by simp [Event.step]) (by simp [Event.step])
  have h₄ := h₃.then_push (.slashingInitGenesis g.SlashingData g.StakeData) 5
      (by simp [Event.step]) (by simp [Event.step]) (by simp [Event.step])
  have h₅ := h₄.then_push (.mintInitGenesis g.MintData) 6 (by simp [Event.step])
      (by simp [Event.step]) (by simp [Event.step])
  have h₆ := h₅.then_push (.distrInitGenesis g.DistrData) 7 (by simp [Event.step])
      (by simp [Event.step]) (by simp [Event.step])
  have h₇ := h₆.then_push .validateGenesis 8 (by simp [Event.step]) (by simp [Event.step])
      (by simp [Event.step])
  dsimp only
  split
  · exact h₁.mono (Nat.le_refl _) (by omega)
  · split
    · exact h₇
    · exact h₇

theorem seedGenesis_grow (p : ProtocolVersion0) (req : RequestInitChain) (ctx : State) :
    Grow 0 8 ctx (seedGenesis p req ctx).state := by
  cases hdec : p.UnmarshalGenesis req.AppStateBytes with
  | error err =>
    unfold seedGenesis
    rw [hdec]
    exact Grow.refl _ _ _
  | ok g =>
    refine Grow.trans 0 8 (loadAccounts_grow p _ ctx)
      (seedGenesis_grow_after_accounts p req ctx g hdec) ?_ ?_ ?_
    · intro x y; omega
    · omega
    · omega

theorem deliverGenTxs_grow (p : ProtocolVersion0) (DeliverTx : DeliverTxFn) (txs : List Bytes) :
    ∀ ctx : State, Grow 8 9 ctx (deliverGenTxs p DeliverTx txs ctx).state := by
  induction txs with
  | nil => intro ctx; exact Grow.refl _ _ _
  | cons genTx rest ih =>
    intro ctx
    unfold deliverGenTxs
    split
    · exact Grow.refl _ _ _
    · rename_i tx _
      have h₁ : Grow 8 9 ctx (ctx.push (.deliverTx (p.MarshalTx tx))) := Grow.push _ _
      dsimp only
      split
      · exact h₁
      · refine Grow.trans 8 9 h₁ (ih _) ?_ ?_ ?_
        · intro x y; omega
        · omega
        · omega

theorem replayGenTxs_grow (p : ProtocolVersion0) (DeliverTx : DeliverTxFn) (gs : GenesisState)
    (validators : List ValidatorUpdate) (ctx : State) :
    Grow 8 9 ctx (replayGenTxs p DeliverTx gs validators ctx).state := by
  unfold replayGenTxs
  split
  · have h := deliverGenTxs_grow p DeliverTx gs.GenTxs ctx
    split
    · rename_i heq
      rw [heq] at h
      exact h
    · rename_i heq
      rw [heq] at h
      refine Grow.trans 8 9 h (Grow.push _ .applyValidatorSetUpdates) ?_ ?_ ?_
      · intro x y; simp only [Event.step]; omega
      · simp [Event.step]
      · simp [Event.step]
  · exact Grow.refl _ _ _

theorem sanityCheck_grow (reqValidators validators : List ValidatorUpdate) (ctx : State) :
    Grow 9 10 ctx (sanityCheck reqValidators validators ctx).state := by
  unfold sanityCheck
  have h : Grow 9 10 ctx (ctx.push .sanityCheck) := Grow.push _ _
  split
  · dsimp only
    split
    · exact h
    · split
      · exact h
      · exact h
  · exact Grow.refl _ _ _

theorem finishGenesis_grow (gs : GenesisState) (ctx : State) :
    Grow 10 13 ctx (finishGenesis gs ctx) := by
  have h₁ : Grow 10 11 ctx (ctx.push (.serviceInitGenesis gs.ServiceData)) := Grow.push _ _
  have h₂ := h₁.then_push (.arbitrationInitGenesis gs.ArbitrationData) 12
    (by simp [Event.step]) (by simp [Event.step]) (by simp [Event.step])
  exact h₂.then_push (.guardianInitGenesis gs.GuardianData) 13
    (by simp [Event.step]) (by simp [Event.step]) (by simp [Event.step])

/-- What `InitChainer` adds after `seedGenesis`: replay and reconciliation calls, and the
service, arbitration and guardian genesis only when it returns. -/
theorem InitChainer_grow_after_seed (p : ProtocolVersion0) (ctx : State)
    (DeliverTx : DeliverTxFn) (req : RequestInitChain) :
    Grow 8 13 (seedGenesis p req ctx).state (InitChainer p ctx DeliverTx req).state ∧
    ((InitChainer p ctx DeliverTx req).isPanic = true →
      Grow 8 10 (seedGenesis p req ctx).state (InitChainer p ctx DeliverTx req).state) := by
  unfold InitChainer
  cases hseed : seedGenesis p req ctx with
  | panic msg st => exact ⟨Grow.refl _ _ _, fun _ => Grow.refl _ _ _⟩
  | ok res st =>
    obtain ⟨gs, validators⟩ := res
    have h₁ := replayGenTxs_grow p DeliverTx gs validators st
    dsimp only
    cases hrep : replayGenTxs p DeliverTx gs validators st with
    | panic msg st₂ =>
      rw [hrep] at h₁
      exact ⟨h₁.mono (Nat.le_refl _) (by omega), fun _ => h₁.mono (Nat.le_refl _) (by omega)⟩
    | ok vals st₂ =>
      rw [hrep] at h₁
      have h₂ := sanityCheck_grow req.Validators vals st₂
      have h₁₂ : Grow 8 10 st (sanityCheck req.Validators vals st₂).state := by
        refine Grow.trans 8 10 h₁ h₂ ?_ ?_ ?_
        · intro x y; omega
        · omega
        · omega
      dsimp only
      cases hchk : sanityCheck req.Validators vals st₂ with
      | panic msg st₃ =>
        rw [hchk] at h₁₂
        exact ⟨h₁₂.mono (Nat.le_refl _) (by omega), fun _ => h₁₂⟩
      | ok vals₃ st₃ =>
        rw [hchk] at h₁₂
        refine ⟨?_, fun h => by simp [Outcome.isPanic] at h⟩
        refine Grow.trans 8 13 h₁₂ (finishGenesis_grow gs st₃) ?_ ?_ ?_
        · intro x y; omega
        · omega
        · omega

theorem InitChainer_grow (p : ProtocolVersion0) (ctx : State)
    (DeliverTx : DeliverTxFn) (req : RequestInitChain) :
    Grow 0 13 ctx (InitChainer p ctx DeliverTx req).state ∧
    ((InitChainer p ctx DeliverTx req).isPanic = true →
      Grow 0 10 ctx (InitChainer p ctx DeliverTx req).state) := by
  have h₁ := seedGenesis_grow p req ctx
  have h₂ := InitChainer_grow_after_seed p ctx DeliverTx req
  refine ⟨Grow.trans 0 13 h₁ h₂.1 ?_ ?_ ?_, fun hp => Grow.trans 0 10 h₁ (h₂.2 hp) ?_ ?_ ?_⟩
  · intro x y; omega
  · omega
  · omega
  · intro x y; omega
  · omega
  · omega

/-! ## Account numbers -/

theorem Grow.accounts_eq {hi : Nat} {a b : State} (h : Grow 1 hi a b) :
    b.accounts = a.accounts := by
  obtain ⟨evs, hlog, -, hb⟩ := h
  have hnone : evs.filterMap (fun e =>
      match e with
      | .setAccount acc => some acc
      | _ => none) = [] := by
    rw [List.filterMap_eq_nil_iff]
    intro e he
    have := (hb e he).1
    cases e <;> simp_all [Event.step]
  simp only [State.accounts, hlog, List.filterMap_append, hnone, List.append_nil]

theorem InitChainer_accounts (p : ProtocolVersion0) (ctx : State) (DeliverTx : DeliverTxFn)
    (req : RequestInitChain) (g : GenesisState)
    (hdec : p.UnmarshalGenesis req.AppStateBytes = .ok g) :
    (InitChainer p ctx DeliverTx req).state.accounts =
      (loadAccounts p
        (goSort (fun a b => decide (a.AccountNumber < b.AccountNumber)) g.Accounts)
        ctx).accounts := by
  have h := Grow.trans 1 13 (seedGenesis_grow_after_accounts p req ctx g hdec)
    (InitChainer_grow_after_seed p ctx DeliverTx req).1 (by intro x y; omega) (by omega)
    (by omega)
  exact h.accounts_eq

/-- C1. When the genesis document decodes to `g`, the declared account numbers in `g` are
pairwise distinct, the counter of the account keeper is 0 and no account is stored yet, then in
the state `InitChainer` ends in (a) the accounts written carry the numbers `0, 1, …, N-1` in
the order of the writes, (b) every genesis account is written with the number equal to how
many accounts declare a smaller number, so the account with the `k`-th smallest declared
number receives `k`, and (c) any request whose document holds a permutation of the same
accounts leaves the same accounts written. -/
theorem C1_account_numbers (p : ProtocolVersion0) (ctx : State) (DeliverTx : DeliverTxFn)
    (req : RequestInitChain) (g : GenesisState)
    (hdec : p.UnmarshalGenesis req.AppStateBytes = .ok g)
    (hdistinct : (g.Accounts.map (fun a => a.AccountNumber)).Nodup)
    (hcounter : ctx.nextAccountNumber = 0) (hfresh : ctx.accounts = []) :
    ((InitChainer p ctx DeliverTx req).state.accounts.map (fun acc => acc.AccountNumber) =
      (List.range g.Accounts.length).map (fun k : Nat => (k : Int))) ∧
    (∀ gacc ∈ g.Accounts,
      { p.ToAccount gacc with
        AccountNumber :=
          ((g.Accounts.countP
            (fun a => decide (a.AccountNumber < gacc.AccountNumber)) : Nat) : Int) } ∈
        (InitChainer p ctx DeliverTx req).state.accounts) ∧
    (∀ (req' : RequestInitChain) (g' : GenesisState),
      p.UnmarshalGenesis req'.AppStateBytes = .ok g' → g'.Accounts.Perm g.Accounts →
      (InitChainer p ctx DeliverTx req').state.accounts =
        (InitChainer p ctx DeliverTx req).state.accounts) := by
  have hperm := goSort_perm
    (fun a b : GenesisAccount => decide (a.AccountNumber < b.AccountNumber)) g.Accounts
  have hsorted := sortedAccounts_increasing g.Accounts hdistinct
  have hacc := InitChainer_accounts p ctx DeliverTx req g hdec
  rw [loadAccounts_accounts, hfresh, hcounter, List.nil_append] at hacc
  refine ⟨?_, ?_, ?_⟩
  · rw [hacc, List.map_map]
    have : ((fun acc : BaseAccount => acc.AccountNumber) ∘ fun kg : Nat × GenesisAccount =>
        ({ p.ToAccount kg.2 with AccountNumber := (kg.1 : Int) } : BaseAccount)) =
        (fun k : Nat => (k : Int)) ∘ Prod.fst := rfl
    rw [this, ← List.map_map]
    change List.map _ (List.map Prod.fst (List.enum _)) = _
    rw [List.enum_map_fst, hperm.length_eq]
  · intro gacc hmem
    have hmem' : gacc ∈ goSort
        (fun a b : GenesisAccount => decide (a.AccountNumber < b.AccountNumber)) g.Accounts :=
      hperm.symm.subset hmem
    obtain ⟨k, hk⟩ := List.mem_iff_getElem?.mp hmem'
    have hcount := countP_lt_of_increasing _ hsorted k gacc hk
    rw [hperm.countP_eq] at hcount
    rw [hacc, hcount]
    refine List.mem_map.mpr ⟨(k, gacc), ?_, rfl⟩
    exact List.mk_mem_enum_iff_getElem?.mpr hk
  · intro req' g' hdec' hp
    rw [InitChainer_accounts p ctx DeliverTx req' g' hdec',
      InitChainer_accounts p ctx DeliverTx req g hdec]
    rw [goSort_perm_invariant _ accountLess_trans hp.symm (accounts_apart g.Accounts hdistinct)]

/-- The accounts of the concrete scenario: declared numbers 5 and 2, one genesis transaction,
no validator supplied by the consensus engine: the account declaring 2 is written first with
number 0, the account declaring 5 second with number 1. -/
theorem C1_account_numbers_witness :
    demo.UnmarshalGenesis [2, 5, 2, 7] = .ok
      { Accounts := [{ Address := [5], Coins := [], Sequence := 0, AccountNumber := 5 },
          { Address := [2], Coins := [], Sequence := 0, AccountNumber := 2 }]
        AuthData := [], StakeData := [], MintData := [], DistrData := [], GovData := []
        SlashingData := [], ServiceData := [], ArbitrationData := [], GuardianData := []
        GenTxs := [[7]] } ∧
    (InitChainer demo freshState demoDeliverTx
        { AppStateBytes := [2, 5, 2, 7], Validators := [] }).state.accounts.map
      (fun acc => acc.AccountNumber) = (List.range 2).map (fun k : Nat => (k : Int)) :=
  ⟨rfl, (C1_account_numbers demo freshState demoDeliverTx
    { AppStateBytes := [2, 5, 2, 7], Validators := [] } _ rfl (by decide) rfl rfl).1⟩

/-! ## The reconciliation check -/

theorem bytesCompare_antisymm : ∀ a b : Bytes, bytesCompare b a = - bytesCompare a b
  | [], [] => by simp [bytesCompare]
  | [], _ :: _ => by simp [bytesCompare]
  | _ :: _, [] => by simp [bytesCompare]
  | x :: as, y :: bs => by
    have ih := bytesCompare_antisymm as bs
    unfold bytesCompare
    by_cases h₁ : x < y
    · have h₂ : ¬ y < x := by omega
      simp [h₁, h₂]
    · by_cases h₂ : y < x
      · simp [h₁, h₂]
      · simp [h₁, h₂, ih]

theorem bytesCompare_eq_zero : ∀ a b : Bytes, bytesCompare a b = 0 → a = b
  | [], [] => fun _ => rfl
  | [], _ :: _ => by simp [bytesCompare]
  | _ :: _, [] => by simp [bytesCompare]
  | x :: as, y :: bs => by
    have ih := bytesCompare_eq_zero as bs
    unfold bytesCompare
    by_cases h₁ : x < y
    · simp [h₁]
    · by_cases h₂ : y < x
      · simp [h₁, h₂]
      · have hxy : x = y := by omega
        simp only [h₁, h₂, if_false]
        intro h
        rw [hxy, ih h]

theorem bytesCompare_trans : ∀ a b c : Bytes,
    bytesCompare a b ≤ 0 → bytesCompare b c ≤ 0 → bytesCompare a c ≤ 0
  | [], [], c => fun _ h => h
  | [], _ :: _, [] => by simp [bytesCompare]
  | [], _ :: _, _ :: _ => by simp [bytesCompare]
  | _ :: _, [], _ => by simp [bytesCompare]
  | _ :: _, _ :: _, [] => by simp [bytesCompare]
  | x :: as, y :: bs, z :: cs => by
    have ih := bytesCompare_trans as bs cs
    unfold bytesCompare
    intro hab hbc
    by_cases hxy : x < y
    · by_cases hyz : y < z
      · have : x < z := by omega
        simp [this]
      · by_cases hzy : z < y
        · simp [hyz, hzy] at hbc
        · have : x < z := by omega
          simp [this]
    · by_cases hyx : y < x
      · simp [hxy, hyx] at hab
      · simp only [hxy, hyx, if_false] at hab
        have hxy' : x = y := by omega
        subst hxy'
        by_cases hxz : x < z
        · simp [hxz]
        · by_cases hzx : z < x
          · simp [hxz, hzx] at hbc
          · simp only [hxz, hzx, if_false] at hbc ⊢
            exact ih hab hbc

theorem validatorLess_trans (a b c : ValidatorUpdate)
    (hab : ValidatorUpdates.Less a b = true) (hbc : ValidatorUpdates.Less b c = true) :
    ValidatorUpdates.Less a c = true := by
  simp only [ValidatorUpdates.Less, decide_eq_true_eq] at *
  exact bytesCompare_trans _ _ _ hab hbc

theorem validators_apart (l : List ValidatorUpdate)
    (h : (l.map (fun v => v.PubKey.Data)).Nodup) : l.Pairwise (Apart ValidatorUpdates.Less) := by
  have h' : l.Pairwise (fun a b => a.PubKey.Data ≠ b.PubKey.Data) := by
    simpa [List.Nodup, List.pairwise_map] using h
  refine h'.imp ?_
  intro a b hne
  have hanti := bytesCompare_antisymm a.PubKey.Data b.PubKey.Data
  have hzero : bytesCompare a.PubKey.Data b.PubKey.Data ≠ 0 :=
    fun h0 => hne (bytesCompare_eq_zero _ _ h0)
  unfold Apart ValidatorUpdates.Less
  rw [hanti]
  by_cases h₁ : bytesCompare a.PubKey.Data b.PubKey.Data ≤ 0
  · have h₂ : ¬ (- bytesCompare a.PubKey.Data b.PubKey.Data ≤ 0) := by omega
    simp [h₁, h₂]
  · have h₂ : - bytesCompare a.PubKey.Data b.PubKey.Data ≤ 0 := by omega
    simp [h₁, h₂]

theorem firstMismatch_eq_none : ∀ (vals reqs : List ValidatorUpdate) (i : Nat),
    vals.length = reqs.length → (firstMismatch i vals reqs = none ↔ vals = reqs)
  | [], [], _ => by simp [firstMismatch]
  | [], _ :: _, _ => by simp
  | _ :: _, [], _ => by simp
  | v :: vals, r :: reqs, i => by
    intro hlen
    have ih := firstMismatch_eq_none vals reqs (i + 1) (by simpa using hlen)
    unfold firstMismatch
    by_cases hvr : v = r
    · simp [ValidatorUpdate.Equal, hvr, ih]
    · simp [ValidatorUpdate.Equal, hvr]

/-- The check passes exactly when the two lists have the same length and sort to the same
list; it then returns the sorted computed list and logs the comparison. -/
theorem sanityCheck_ok_iff (reqs vals : List ValidatorUpdate) (ctx : State) (hne : reqs ≠ []) :
    (sanityCheck reqs vals ctx).isPanic = false ↔
      (reqs.length = vals.length ∧
        goSort ValidatorUpdates.Less vals = goSort ValidatorUpdates.Less reqs) := by
  have hpos : reqs.length > 0 := List.length_pos.mpr hne
  unfold sanityCheck
  rw [if_pos hpos]
  by_cases hlen : reqs.length = vals.length
  · have hlen' : (goSort ValidatorUpdates.Less vals).length =
        (goSort ValidatorUpdates.Less reqs).length := by
      rw [(goSort_perm _ vals).length_eq, (goSort_perm _ reqs).length_eq, hlen]
    have hm := firstMismatch_eq_none _ _ 0 hlen'
    simp only [bne_iff_ne, ne_eq, hlen, not_true_eq_false, if_false, true_and]
    cases hfm : firstMismatch 0 (goSort ValidatorUpdates.Less vals)
        (goSort ValidatorUpdates.Less reqs) with
    | none => simpa [Outcome.isPanic] using hm.mp hfm
    | some i =>
      have : ¬ goSort ValidatorUpdates.Less vals = goSort ValidatorUpdates.Less reqs := by
        intro h
        rw [hm.mpr h] at hfm
        cases hfm
      simpa [Outcome.isPanic] using this
  · simp [hlen, Outcome.isPanic]

theorem sanityCheck_state (reqs vals : List ValidatorUpdate) (ctx : State) (hne : reqs ≠ []) :
    (sanityCheck reqs vals ctx).state = ctx.push .sanityCheck := by
  have hpos : reqs.length > 0 := List.length_pos.mpr hne
  unfold sanityCheck
  rw [if_pos hpos]
  dsimp only
  split
  · rfl
  · split <;> rfl

theorem sanityCheck_pass (reqs vals : List ValidatorUpdate) (ctx : State) (hne : reqs ≠ [])
    (h : (sanityCheck reqs vals ctx).isPanic = false) :
    sanityCheck reqs vals ctx =
      .ok (goSort ValidatorUpdates.Less vals) (ctx.push .sanityCheck) := by
  have hpos : reqs.length > 0 := List.length_pos.mpr hne
  have hst := sanityCheck_state reqs vals ctx hne
  cases hsc : sanityCheck reqs vals ctx with
  | panic msg st =>
    rw [hsc] at h
    simp [Outcome.isPanic] at h
  | ok v st =>
    rw [hsc] at hst
    have hst' : st = ctx.push .sanityCheck := hst
    subst hst'
    unfold sanityCheck at hsc
    rw [if_pos hpos] at hsc
    dsimp only at hsc
    split at hsc
    · cases hsc
    · split at hsc
      · cases hsc
      · injection hsc with hv _
        rw [hv]

theorem sanityCheck_empty (vals : List ValidatorUpdate) (ctx : State) :
    sanityCheck [] vals ctx = .ok vals ctx := rfl

/-- The rest of `InitChainer` from the sanity check on, for a run that reaches it. -/
theorem InitChainer_of_reached (p : ProtocolVersion0) (ctx : State) (DeliverTx : DeliverTxFn)
    (req : RequestInitChain) (gs : GenesisState) (v₀ vals : List ValidatorUpdate)
    (ctx₁ ctx₂ : State) (hseed : seedGenesis p req ctx = .ok (gs, v₀) ctx₁)
    (hreplay : replayGenTxs p DeliverTx gs v₀ ctx₁ = .ok vals ctx₂) :
    InitChainer p ctx DeliverTx req =
      match sanityCheck req.Validators vals ctx₂ with
      | .panic msg st => .panic msg st
      | .ok validators st => .ok { Validators := validators } (finishGenesis gs st) := by
  unfold InitChainer
  rw [hseed]
  dsimp only
  rw [hreplay]

/-- C2. When a run reaches the sanity check (the genesis is seeded and the genesis
transactions are replayed without a panic), the list supplied by the consensus engine is not
empty and is not a rearrangement of the computed list (a validator is extra, missing or has
another power or key), `InitChainer` panics: it returns no response, and it stops in the
state of the check, before the service, arbitration and guardian genesis. -/
theorem C2_mismatch_is_fatal (p : ProtocolVersion0) (ctx : State) (DeliverTx : DeliverTxFn)
    (req : RequestInitChain) (gs : GenesisState) (v₀ vals : List ValidatorUpdate)
    (ctx₁ ctx₂ : State) (hseed : seedGenesis p req ctx = .ok (gs, v₀) ctx₁)
    (hreplay : replayGenTxs p DeliverTx gs v₀ ctx₁ = .ok vals ctx₂)
    (hne : req.Validators ≠ []) (hmis : ¬ req.Validators.Perm vals) :
    (InitChainer p ctx DeliverTx req).isPanic = true ∧
    (InitChainer p ctx DeliverTx req).value = none ∧
    (InitChainer p ctx DeliverTx req).state = ctx₂.push .sanityCheck := by
  have hpanic : (sanityCheck req.Validators vals ctx₂).isPanic = true := by
    cases h : (sanityCheck req.Validators vals ctx₂).isPanic with
    | true => rfl
    | false =>
      exfalso
      have hsort := ((sanityCheck_ok_iff req.Validators vals ctx₂ hne).mp h).2
      apply hmis
      exact ((goSort_perm ValidatorUpdates.Less req.Validators).symm.trans
        (hsort ▸ List.Perm.refl _)).trans (goSort_perm ValidatorUpdates.Less vals)
  have hstate := sanityCheck_state req.Validators vals ctx₂ hne
  rw [InitChainer_of_reached p ctx DeliverTx req gs v₀ vals ctx₁ ctx₂ hseed hreplay]
  cases hsc : sanityCheck req.Validators vals ctx₂ with
  | ok v st =>
    rw [hsc] at hpanic
    simp [Outcome.isPanic] at hpanic
  | panic msg st =>
    rw [hsc] at hstate
    exact ⟨rfl, rfl, hstate⟩

/-- A run with two delivered genesis transactions, hence the computed validators with the
keys `[7]` and `[3]` and power 10, against a supplied list that gives the second validator
the power 11: `InitChainer` panics in the check. -/
theorem C2_mismatch_is_fatal_witness :
    (InitChainer demo freshState demoDeliverTx
      { AppStateBytes := [0, 7, 3],
        Validators := [demoValidator 3 10, demoValidator 7 11] }).isPanic = true ∧
    (InitChainer demo freshState demoDeliverTx
      { AppStateBytes := [0, 7, 3],
        Validators := [demoValidator 3 10, demoValidator 7 11] }).value = none :=
  have h := C2_mismatch_is_fatal demo freshState demoDeliverTx
    { AppStateBytes := [0, 7, 3], Validators := [demoValidator 3 10, demoValidator 7 11] }
    _ _ [demoValidator 7 10, demoValidator 3 10] _ _ rfl rfl (by decide) (by decide)
  ⟨h.1, h.2.1⟩

/-- C3 as stated fails.  The staking genesis of `demoTwice` computes the key `[7]` twice,
with the powers 2 and 1.  The supplied list with the same two members in the same order
passes the check; the supplied list with the same two members in the other order makes
`InitChainer` panic, because the sort compares the key bytes only and the comparison that
follows is position by position. -/
theorem C3_counterexample :
    [demoValidator 7 1, demoValidator 7 2].Perm [demoValidator 7 2, demoValidator 7 1] ∧
    (InitChainer demoTwice freshState demoDeliverTx
      { AppStateBytes := [0],
        Validators := [demoValidator 7 2, demoValidator 7 1] }).isPanic = false ∧
    (InitChainer demoTwice freshState demoDeliverTx
      { AppStateBytes := [0],
        Validators := [demoValidator 7 1, demoValidator 7 2] }).isPanic = true := by
  refine ⟨by decide, by decide, by decide⟩

/-- C3, amended.  When a run reaches the sanity check, the supplied list is not empty, has
the same members as the computed list, and the key bytes of the members are pairwise
distinct, `InitChainer` passes the check and returns the computed validators in sorted order;
and the check gives this same result for every rearrangement of the supplied list and every
rearrangement of the computed list. -/
theorem C3_same_members_pass (p : ProtocolVersion0) (ctx : State) (DeliverTx : DeliverTxFn)
    (req : RequestInitChain) (gs : GenesisState) (v₀ vals : List ValidatorUpdate)
    (ctx₁ ctx₂ : State) (hseed : seedGenesis p req ctx = .ok (gs, v₀) ctx₁)
    (hreplay : replayGenTxs p DeliverTx gs v₀ ctx₁ = .ok vals ctx₂)
    (hne : req.Validators ≠ []) (hsame : req.Validators.Perm vals)
    (hkeys : (vals.map (fun v => v.PubKey.Data)).Nodup) :
    InitChainer p ctx DeliverTx req =
      .ok { Validators := goSort ValidatorUpdates.Less vals }
        (finishGenesis gs (ctx₂.push .sanityCheck)) ∧
    (∀ reqs' vals' : List ValidatorUpdate, reqs'.Perm req.Validators → vals'.Perm vals →
      sanityCheck reqs' vals' ctx₂ =
        .ok (goSort ValidatorUpdates.Less vals) (ctx₂.push .sanityCheck)) := by
  have hall : ∀ reqs' vals' : List ValidatorUpdate, reqs'.Perm req.Validators →
      vals'.Perm vals → sanityCheck reqs' vals' ctx₂ =
        .ok (goSort ValidatorUpdates.Less vals) (ctx₂.push .sanityCheck) := by
    intro reqs' vals' hr hv
    have hne' : reqs' ≠ [] := by
      intro h
      rw [h] at hr
      exact hne (List.perm_nil.mp hr.symm)
    have hapart := validators_apart vals hkeys
    have hv' : goSort ValidatorUpdates.Less vals' = goSort ValidatorUpdates.Less vals :=
      (goSort_perm_invariant _ validatorLess_trans hv.symm hapart).symm
    have hr' : goSort ValidatorUpdates.Less reqs' = goSort ValidatorUpdates.Less vals :=
      (goSort_perm_invariant _ validatorLess_trans (hr.trans hsame).symm hapart).symm
    have hok : (sanityCheck reqs' vals' ctx₂).isPanic = false :=
      (sanityCheck_ok_iff reqs' vals' ctx₂ hne').mpr
        ⟨((hr.trans hsame).trans hv.symm).length_eq, by rw [hv', hr']⟩
    rw [sanityCheck_pass reqs' vals' ctx₂ hne' hok, hv']
  refine ⟨?_, hall⟩
  rw [InitChainer_of_reached p ctx DeliverTx req gs v₀ vals ctx₁ ctx₂ hseed hreplay,
    hall req.Validators vals (List.Perm.refl _) (List.Perm.refl _)]

/-- A run with the computed validators `[7]` and `[3]`, and the same two validators supplied
in the other order: the check passes and the sorted list is returned. -/
theorem C3_same_members_pass_witness :
    (InitChainer demo freshState demoDeliverTx
      { AppStateBytes := [0, 7, 3],
        Validators := [demoValidator 3 10, demoValidator 7 10] }).value =
      some { Validators := [demoValidator 3 10, demoValidator 7 10] } := by
  rw [(C3_same_members_pass demo freshState demoDeliverTx
    { AppStateBytes := [0, 7, 3], Validators := [demoValidator 3 10, demoValidator 7 10] }
    _ _ [demoValidator 7 10, demoValidator 3 10] _ _ rfl rfl (by decide) (by decide)
    (by decide)).1]
  decide

theorem seedGenesis_ok_inv (p : ProtocolVersion0) (req : RequestInitChain) (ctx : State)
    (gs : GenesisState) (v₀ : List ValidatorUpdate) (ctx₁ : State)
    (hseed : seedGenesis p req ctx = .ok (gs, v₀) ctx₁) :
    ∃ g, p.UnmarshalGenesis req.AppStateBytes = .ok g ∧
      gs = ({ g with
        Accounts := goSort (fun a b => decide (a.AccountNumber < b.AccountNumber)) g.Accounts } :
          GenesisState) ∧
      p.stakeInitGenesis (loadAccounts p gs.Accounts ctx) gs.StakeData = .ok v₀ ∧
      p.IrisValidateGenesisState gs = none ∧
      ctx₁.log = (loadAccounts p gs.Accounts ctx).log ++
        [.stakeInitGenesis gs.StakeData, .govInitGenesis gs.GovData,
          .authInitGenesis gs.AuthData
            { FeeTokenNative := p.IrisCtMinUnitDenom, GasPriceThreshold := 20000000000 },
          .slashingInitGenesis gs.SlashingData gs.StakeData, .mintInitGenesis gs.MintData,
          .distrInitGenesis gs.DistrData, .validateGenesis] := by
  unfold seedGenesis at hseed
  split at hseed
  · cases hseed
  · rename_i g hdec
    dsimp only at hseed
    split at hseed
    · cases hseed
    · rename_i vals hstake
      split at hseed
      · cases hseed
      · rename_i hval
        injection hseed with h₁ h₂
        injection h₁ with hgs hv
        subst hgs hv h₂
        exact ⟨g, hdec, rfl, hstake, hval, by simp [State.push]⟩

theorem replayGenTxs_ok_inv (p : ProtocolVersion0) (DeliverTx : DeliverTxFn) (gs : GenesisState)
    (v₀ vals : List ValidatorUpdate) (ctx₁ ctx₂ : State)
    (hreplay : replayGenTxs p DeliverTx gs v₀ ctx₁ = .ok vals ctx₂) :
    (gs.GenTxs = [] → vals = v₀ ∧ ctx₂ = ctx₁) ∧
    (gs.GenTxs ≠ [] → ∃ ctxd, deliverGenTxs p DeliverTx gs.GenTxs ctx₁ = .ok () ctxd ∧
      vals = p.ApplyAndReturnValidatorSetUpdates ctxd ∧
      ctx₂ = ctxd.push .applyValidatorSetUpdates) := by
  unfold replayGenTxs at hreplay
  split at hreplay
  · rename_i hpos
    have hne : gs.GenTxs ≠ [] := List.length_pos.mp hpos
    refine ⟨fun h => absurd h hne, fun _ => ?_⟩
    split at hreplay
    · cases hreplay
    · rename_i u ctxd hdel
      injection hreplay with hv hst
      exact ⟨ctxd, hdel, hv.symm, hst.symm⟩
  · rename_i hpos
    have hnil : gs.GenTxs = [] := by
      cases h : gs.GenTxs with
      | nil => rfl
      | cons a t => rw [h] at hpos; simp at hpos
    injection hreplay with hv hst
    exact ⟨fun _ => ⟨hv.symm, hst.symm⟩, fun h => absurd hnil h⟩

/-- C4. When the genesis is seeded and the genesis transactions are replayed without a panic
and the consensus engine supplies no validator, `InitChainer` returns, the response carries
the computed validator list as it is, the calls logged by the run contain no reconciliation
comparison, and the computed list is the result of `stake.InitGenesis` when the document has
no genesis transaction and the result of `ApplyAndReturnValidatorSetUpdates` in the state
after the last delivery when it has some. -/
theorem C4_empty_supplied_list (p : ProtocolVersion0) (ctx : State) (DeliverTx : DeliverTxFn)
    (req : RequestInitChain) (gs : GenesisState) (v₀ vals : List ValidatorUpdate)
    (ctx₁ ctx₂ : State) (hseed : seedGenesis p req ctx = .ok (gs, v₀) ctx₁)
    (hreplay : replayGenTxs p DeliverTx gs v₀ ctx₁ = .ok vals ctx₂)
    (hempty : req.Validators = []) :
    InitChainer p ctx DeliverTx req = .ok { Validators := vals } (finishGenesis gs ctx₂) ∧
    (∃ evs, (InitChainer p ctx DeliverTx req).state.log = ctx.log ++ evs ∧
      Event.sanityCheck ∉ evs) ∧
    p.stakeInitGenesis (loadAccounts p gs.Accounts ctx) gs.StakeData = .ok v₀ ∧
    (gs.GenTxs = [] → vals = v₀) ∧
    (gs.GenTxs ≠ [] → ∃ ctxd, deliverGenTxs p DeliverTx gs.GenTxs ctx₁ = .ok () ctxd ∧
      vals = p.ApplyAndReturnValidatorSetUpdates ctxd) := by
  have hinit : InitChainer p ctx DeliverTx req =
      .ok { Validators := vals } (finishGenesis gs ctx₂) := by
    rw [InitChainer_of_reached p ctx DeliverTx req gs v₀ vals ctx₁ ctx₂ hseed hreplay, hempty,
      sanityCheck_empty]
  obtain ⟨g, -, -, hstake, -, -⟩ := seedGenesis_ok_inv p req ctx gs v₀ ctx₁ hseed
  have hinv := replayGenTxs_ok_inv p DeliverTx gs v₀ vals ctx₁ ctx₂ hreplay
  refine ⟨hinit, ?_, hstake, fun h => (hinv.1 h).1, fun h => ?_⟩
  · have h₁ := seedGenesis_grow p req ctx
    rw [hseed] at h₁
    have h₂ := replayGenTxs_grow p DeliverTx gs v₀ ctx₁
    rw [hreplay] at h₂
    obtain ⟨evs, hlog, -, hb⟩ := Grow.trans 0 9 h₁ h₂ (by intro x y; omega) (by omega) (by omega)
    have hlog' : ctx₂.log = ctx.log ++ evs := hlog
    refine ⟨evs ++ [.serviceInitGenesis gs.ServiceData,
      .arbitrationInitGenesis gs.ArbitrationData, .guardianInitGenesis gs.GuardianData], ?_, ?_⟩
    · rw [hinit]
      simp [Outcome.state, finishGenesis, State.push, hlog']
    · intro hmem
      rcases List.mem_append.mp hmem with hmem | hmem
      · have := (hb _ hmem).2
        simp [Event.step] at this
      · simp at hmem
  · obtain ⟨ctxd, hdel, hv, -⟩ := hinv.2 h
    exact ⟨ctxd, hdel, hv⟩

/-- The concrete scenario: accounts declaring 5 and 2, one genesis transaction that bonds a
validator, no validator supplied: `InitChainer` returns that one validator. -/
theorem C4_empty_supplied_list_witness :
    (InitChainer demo freshState demoDeliverTx
      { AppStateBytes := [2, 5, 2, 7], Validators := [] }).value =
      some { Validators := [demoValidator 7 10] } := by
  rw [(C4_empty_supplied_list demo freshState demoDeliverTx
    { AppStateBytes := [2, 5, 2, 7], Validators := [] } _ _ [demoValidator 7 10] _ _
    rfl rfl rfl).1]
  rfl

/-! ## The combined hooks -/

/-- C5. For each of the nine events and all arguments, the combined hooks run the method of
the distribution hooks on the given state and then the method of the slashing hooks on the
state the distribution hooks leave, each with the arguments of the event; with subscribers
that record their calls, the log gains exactly two entries, the distribution call first and
the slashing call second, both carrying the event, and nothing else changes. -/
theorem C5_hooks_distribution_then_slashing (dh sh : StakingHooks) (ctx : State)
    (ev : StakingEvent) :
    (NewHooks dh sh).on ctx ev = sh.on (dh.on ctx ev) ev ∧
    ((NewHooks (recorder .distr) (recorder .slashing)).on ctx ev).log =
      ctx.log ++ [.hook .distr ev, .hook .slashing ev] ∧
    ((NewHooks (recorder .distr) (recorder .slashing)).on ctx ev).nextAccountNumber =
      ctx.nextAccountNumber := by
  cases ev <;>
    refine ⟨rfl, ?_, rfl⟩ <;>
    simp [Hooks.on, NewHooks, recorder, State.push, Hooks.OnValidatorCreated,
      Hooks.OnValidatorModified, Hooks.OnValidatorRemoved, Hooks.OnValidatorBonded,
      Hooks.OnValidatorPowerDidChange, Hooks.OnValidatorBeginUnbonding,
      Hooks.OnDelegationCreated, Hooks.OnDelegationSharesModified, Hooks.OnDelegationRemoved]

/-! ## `BeginBlocker` and `EndBlocker` -/

/-- C6. For every state and request the tags in the response of `BeginBlocker` are the tags
the three begin-phase components hand to it, concatenated in the order slashing, distribution,
minting, which is the order in which the three are called.  Distribution and minting are
called as statements and hand no tag back, so the concatenation is the list of the slashing
tags. -/
theorem C6_begin_blocker_tags (p : ProtocolVersion0) (ctx : State) (req : RequestBeginBlock) :
    (BeginBlocker p ctx req).1.Tags =
      emittedTags p ctx req .slashing ++
        emittedTags p (ctx.push .slashingBeginBlocker) req .distr ++
        emittedTags p ((ctx.push .slashingBeginBlocker).push .distrBeginBlocker) req .mint ∧
    (BeginBlocker p ctx req).2.log =
      ctx.log ++ [BeginComponent.slashing, .distr, .mint].map BeginComponent.call ∧
    (BeginBlocker p ctx req).1.Tags = p.slashingBeginBlocker ctx req := by
  simp [BeginBlocker, State.push, emittedTags, BeginComponent.call]

/-- C7. For every state and request the response of `EndBlocker` carries as validator
updates the list the staking end logic returns and as tags the tags of the governance end
logic followed by the tags of the service end logic; governance runs on the given state,
staking on the state governance leaves, service on the state staking leaves, and the three
calls are logged in this order. -/
theorem C7_end_blocker (p : ProtocolVersion0) (ctx : State) (req : RequestEndBlock) :
    (EndBlocker p ctx req).1.ValidatorUpdates = p.stakeEndBlocker (ctx.push .govEndBlocker) ∧
    (EndBlocker p ctx req).1.Tags =
      p.govEndBlocker ctx ++
        p.serviceEndBlocker ((ctx.push .govEndBlocker).push .stakeEndBlocker) ∧
    (EndBlocker p ctx req).2.log =
      ctx.log ++ [.govEndBlocker, .stakeEndBlocker, .serviceEndBlocker] := by
  simp [EndBlocker, State.push]

/-! ## The replay of the genesis transactions -/

theorem deliverGenTxs_append (p : ProtocolVersion0) (DeliverTx : DeliverTxFn)
    (pre rest : List Bytes) : ∀ ctx : State,
    deliverGenTxs p DeliverTx (pre ++ rest) ctx =
      match deliverGenTxs p DeliverTx pre ctx with
      | .panic msg st => .panic msg st
      | .ok _ st => deliverGenTxs p DeliverTx rest st := by
  induction pre with
  | nil => intro ctx; simp [deliverGenTxs]
  | cons genTx pre ih =>
    intro ctx
    simp only [List.cons_append, deliverGenTxs]
    split
    · rfl
    · split
      · rfl
      · exact ih _

theorem deliverGenTxs_shape (p : ProtocolVersion0) (DeliverTx : DeliverTxFn)
    (txs : List Bytes) : ∀ ctx : State, ∃ (n : Nat) (bzs : List Bytes),
      n ≤ txs.length ∧ (txs.take n).map (encodeTx p) = bzs.map some ∧
      (deliverGenTxs p DeliverTx txs ctx).state.log = ctx.log ++ bzs.map Event.deliverTx ∧
      ((deliverGenTxs p DeliverTx txs ctx).isPanic = false → n = txs.length) := by
  induction txs with
  | nil =>
    intro ctx
    exact ⟨0, [], by simp, by simp, by simp [deliverGenTxs, Outcome.state], by simp⟩
  | cons genTx rest ih =>
    intro ctx
    unfold deliverGenTxs
    cases hdec : p.UnmarshalTx genTx with
    | error err =>
      exact ⟨0, [], by simp, by simp, by simp [Outcome.state], by simp [Outcome.isPanic]⟩
    | ok tx =>
      have henc : encodeTx p genTx = some (p.MarshalTx tx) := by simp [encodeTx, hdec]
      dsimp only
      by_cases hok : (DeliverTx ctx (p.MarshalTx tx)).IsOK = true
      · obtain ⟨n, bzs, hn, hmap, hlog, hall⟩ := ih (ctx.push (.deliverTx (p.MarshalTx tx)))
        refine ⟨n + 1, p.MarshalTx tx :: bzs, by simpa using hn, by simp [henc, hmap], ?_, ?_⟩
        · simp only [hok, Bool.not_true, Bool.false_eq_true, if_false]
          rw [hlog]
          simp [State.push]
        · simp only [hok, Bool.not_true, Bool.false_eq_true, if_false]
          intro h
          simpa using hall h
      · have hok' : (DeliverTx ctx (p.MarshalTx tx)).IsOK = false := by simpa using hok
        refine ⟨1, [p.MarshalTx tx], by simp, by simp [henc], ?_, ?_⟩
        · simp [hok', Outcome.state, State.push]
        · simp [hok', Outcome.isPanic]

theorem delivered_of_log (a b : State) (bzs : List Bytes) (evs : List Event)
    (hlog : b.log = a.log ++ bzs.map Event.deliverTx ++ evs)
    (hevs : ∀ e ∈ evs, ∀ bz, e ≠ .deliverTx bz) : b.delivered = a.delivered ++ bzs := by
  have h₁ : (bzs.map Event.deliverTx).filterMap (fun e =>
      match e with
      | .deliverTx bz => some bz
      | _ => none) = bzs := by
    rw [List.filterMap_map]
    change List.filterMap (fun bz => some bz) bzs = bzs
    exact List.filterMap_some bzs
  have h₂ : evs.filterMap (fun e =>
      match e with
      | .deliverTx bz => some bz
      | _ => none) = [] := by
    rw [List.filterMap_eq_nil_iff]
    intro e he
    have := hevs e he
    cases e with
    | deliverTx bz => exact absurd rfl (this bz)
    | _ => rfl
  simp only [State.delivered, hlog, List.filterMap_append, h₁, h₂, List.append_nil]

theorem InitChainer_grow_after_replay (p : ProtocolVersion0) (ctx : State)
    (DeliverTx : DeliverTxFn) (req : RequestInitChain) (gs : GenesisState)
    (v₀ : List ValidatorUpdate) (ctx₁ : State)
    (hseed : seedGenesis p req ctx = .ok (gs, v₀) ctx₁) :
    Grow 9 13 (replayGenTxs p DeliverTx gs v₀ ctx₁).state (InitChainer p ctx DeliverTx req).state ∧
    ((InitChainer p ctx DeliverTx req).isPanic = false →
      (replayGenTxs p DeliverTx gs v₀ ctx₁).isPanic = false) := by
  unfold InitChainer
  rw [hseed]
  dsimp only
  cases hrep : replayGenTxs p DeliverTx gs v₀ ctx₁ with
  | panic msg st => exact ⟨Grow.refl _ _ _, fun h => h⟩
  | ok vals st =>
    have h₂ := sanityCheck_grow req.Validators vals st
    dsimp only
    cases hchk : sanityCheck req.Validators vals st with
    | panic msg st₃ =>
      rw [hchk] at h₂
      exact ⟨h₂.mono (Nat.le_refl _) (by omega), fun _ => rfl⟩
    | ok vals₃ st₃ =>
      rw [hchk] at h₂
      refine ⟨?_, fun _ => rfl⟩
      refine Grow.trans 9 13 h₂ (finishGenesis_grow gs st₃) ?_ ?_ ?_
      · intro x y; omega
      · omega
      · omega

theorem replayGenTxs_shape (p : ProtocolVersion0) (DeliverTx : DeliverTxFn) (gs : GenesisState)
    (v₀ : List ValidatorUpdate) (ctx₁ : State) :
    ∃ (n : Nat) (bzs : List Bytes) (ap : List Event),
      n ≤ gs.GenTxs.length ∧ (gs.GenTxs.take n).map (encodeTx p) = bzs.map some ∧
      (replayGenTxs p DeliverTx gs v₀ ctx₁).state.log =
        ctx₁.log ++ bzs.map Event.deliverTx ++ ap ∧
      (∀ e ∈ ap, e = .applyValidatorSetUpdates) ∧
      ((replayGenTxs p DeliverTx gs v₀ ctx₁).isPanic = false → n = gs.GenTxs.length) := by
  unfold replayGenTxs
  split
  · obtain ⟨n, bzs, hn, hmap, hlog, hall⟩ := deliverGenTxs_shape p DeliverTx gs.GenTxs ctx₁
    cases hdel : deliverGenTxs p DeliverTx gs.GenTxs ctx₁ with
    | panic msg st =>
      rw [hdel] at hlog
      exact ⟨n, bzs, [], hn, hmap, by simpa [Outcome.state] using hlog, by simp,
        fun h => by simp [Outcome.isPanic] at h⟩
    | ok u st =>
      rw [hdel] at hlog hall
      have hlog' : st.log = ctx₁.log ++ bzs.map Event.deliverTx := hlog
      exact ⟨n, bzs, [.applyValidatorSetUpdates], hn, hmap,
        by simp [Outcome.state, State.push, hlog'], by simp, fun _ => hall rfl⟩
  · rename_i hpos
    have hlen : gs.GenTxs.length = 0 := by omega
    exact ⟨0, [], [], by simp, by simp, by simp [Outcome.state], by simp, fun _ => hlen.symm⟩

/-- C8. In a run whose genesis is seeded without a panic, (a) the transactions handed to the
delivery function are, in document order, the encodings of the first `n` genesis
transactions for some `n`, and of all of them when `InitChainer` returns; (b) when the
transactions before some genesis transaction are delivered with an OK result and the
delivery result of that transaction is not OK, then `InitChainer` panics with the log line of
that result, in the state right after this delivery: the log holds the deliveries up to and
including this transaction and nothing after it, so no later genesis transaction is
delivered, the validator set is not recomputed and no response is returned. -/
theorem C8_genesis_transactions (p : ProtocolVersion0) (ctx : State) (DeliverTx : DeliverTxFn)
    (req : RequestInitChain) (gs : GenesisState) (v₀ : List ValidatorUpdate) (ctx₁ : State)
    (hseed : seedGenesis p req ctx = .ok (gs, v₀) ctx₁) :
    (∃ (n : Nat) (bzs : List Bytes),
      n ≤ gs.GenTxs.length ∧ (gs.GenTxs.take n).map (encodeTx p) = bzs.map some ∧
      (InitChainer p ctx DeliverTx req).state.delivered = ctx₁.delivered ++ bzs ∧
      ((InitChainer p ctx DeliverTx req).isPanic = false → n = gs.GenTxs.length)) ∧
    (∀ (pre : List Bytes) (genTx : Bytes) (post : List Bytes) (tx : StdTx) (ctx₂ : State),
      gs.GenTxs = pre ++ genTx :: post →
      deliverGenTxs p DeliverTx pre ctx₁ = .ok () ctx₂ →
      p.UnmarshalTx genTx = .ok tx →
      (DeliverTx ctx₂ (p.MarshalTx tx)).IsOK = false →
      InitChainer p ctx DeliverTx req =
        .panic (DeliverTx ctx₂ (p.MarshalTx tx)).Log
          (ctx₂.push (.deliverTx (p.MarshalTx tx))) ∧
      ∃ bzs : List Bytes, pre.map (encodeTx p) = bzs.map some ∧
        ctx₂.log = ctx₁.log ++ bzs.map Event.deliverTx) := by
  constructor
  · obtain ⟨n, bzs, ap, hn, hmap, hlog, hap, hall⟩ := replayGenTxs_shape p DeliverTx gs v₀ ctx₁
    obtain ⟨hgrow, hpanic⟩ := InitChainer_grow_after_replay p ctx DeliverTx req gs v₀ ctx₁ hseed
    obtain ⟨evs, hlog₂, -, hb⟩ := hgrow
    refine ⟨n, bzs, hn, hmap, ?_, fun h => hall (hpanic h)⟩
    refine delivered_of_log ctx₁ _ bzs (ap ++ evs) ?_ ?_
    · rw [hlog₂, hlog, List.append_assoc]
    · intro e he bz heq
      rcases List.mem_append.mp he with he | he
      · rw [hap e he] at heq
        cases heq
      · have := (hb e he).1
        rw [heq] at this
        simp [Event.step] at this
  · intro pre genTx post tx ctx₂ hsplit hpre hdec hnot
    have hdel : deliverGenTxs p DeliverTx gs.GenTxs ctx₁ =
        .panic (DeliverTx ctx₂ (p.MarshalTx tx)).Log
          (ctx₂.push (.deliverTx (p.MarshalTx tx))) := by
      rw [hsplit, deliverGenTxs_append, hpre]
      simp only [deliverGenTxs, hdec, hnot, Bool.not_false, if_true]
    have hpos : gs.GenTxs.length > 0 := by
      rw [hsplit]
      simp
    refine ⟨?_, ?_⟩
    · unfold InitChainer
      rw [hseed]
      simp only [replayGenTxs, hpos, if_true, hdel]
    · obtain ⟨n, bzs, -, hmap, hlog, hall⟩ := deliverGenTxs_shape p DeliverTx pre ctx₁
      rw [hpre] at hlog hall
      have hn : n = pre.length := hall rfl
      subst hn
      rw [List.take_length] at hmap
      exact ⟨bzs, hmap, hlog⟩

/-- A document with the genesis transactions `[7]`, `[9]`, `[8]`, of which the delivery
function rejects `[9]`: `InitChainer` panics, `[7]` and `[9]` are delivered and `[8]` is
not. -/
theorem C8_genesis_transactions_witness :
    (InitChainer demo freshState demoDeliverTx
      { AppStateBytes := [2, 5, 2, 7, 9, 8], Validators := [] }).isPanic = true ∧
    (InitChainer demo freshState demoDeliverTx
      { AppStateBytes := [2, 5, 2, 7, 9, 8], Validators := [] }).state.delivered =
      [[7], [9]] := by
  rw [((C8_genesis_transactions demo freshState demoDeliverTx
    { AppStateBytes := [2, 5, 2, 7, 9, 8], Validators := [] } _ _ _ rfl).2
    [[7]] [9] [[8]] [9] _ rfl rfl rfl rfl).1]
  exact ⟨rfl, rfl⟩

/-! ## The order of the genesis steps, for every run -/

/-- C9. The calls a run of `InitChainer` adds to the log follow the order of the genesis
steps: accounts, staking, governance, auth/fee, slashing, minting, distribution, structural
validation, genesis-transaction replay, reconciliation, service, arbitration, guardian; no
call of a later step precedes a call of an earlier one, and only the account writes and the
replay calls repeat within a step.  When the run panics, whatever the step that fails, no
service, arbitration or guardian genesis is among the calls.  When the run returns, the calls
are the account writes, then the staking, governance, auth/fee, slashing, minting and
distribution genesis and the validation, then replay and reconciliation calls, then the
service, arbitration and guardian genesis. -/
theorem C9_genesis_step_order (p : ProtocolVersion0) (ctx : State) (DeliverTx : DeliverTxFn)
    (req : RequestInitChain) :
    ∃ evs : List Event,
      (InitChainer p ctx DeliverTx req).state.log = ctx.log ++ evs ∧
      evs.Pairwise StepOrder ∧
      (∀ e ∈ evs, e.step < 13) ∧
      ((InitChainer p ctx DeliverTx req).isPanic = true → ∀ e ∈ evs, e.step < 10) ∧
      ((InitChainer p ctx DeliverTx req).isPanic = false →
        ∃ (gs : GenesisState) (accs mid : List Event),
          evs = accs ++
            [.stakeInitGenesis gs.StakeData, .govInitGenesis gs.GovData,
              .authInitGenesis gs.AuthData
                { FeeTokenNative := p.IrisCtMinUnitDenom, GasPriceThreshold := 20000000000 },
              .slashingInitGenesis gs.SlashingData gs.StakeData,
              .mintInitGenesis gs.MintData, .distrInitGenesis gs.DistrData,
              .validateGenesis] ++ mid ++
            [.serviceInitGenesis gs.ServiceData, .arbitrationInitGenesis gs.ArbitrationData,
              .guardianInitGenesis gs.GuardianData] ∧
          (∀ e ∈ accs, e.step = 0) ∧ (∀ e ∈ mid, e.step = 8 ∨ e.step = 9)) := by
  obtain ⟨hall, hpanic⟩ := InitChainer_grow p ctx DeliverTx req
  obtain ⟨evs, hlog, hp, hb⟩ := hall
  refine ⟨evs, hlog, hp, fun e he => (hb e he).2, ?_, ?_⟩
  · intro h e he
    obtain ⟨evs', hlog', -, hb'⟩ := hpanic h
    have : evs' = evs := List.append_cancel_left (hlog'.symm.trans hlog)
    subst this
    exact (hb' e he).2
  · intro h
    cases hseed : seedGenesis p req ctx with
    | panic msg st =>
      unfold InitChainer at h
      rw [hseed] at h
      simp [Outcome.isPanic] at h
    | ok res ctx₁ =>
      obtain ⟨gs, v₀⟩ := res
      cases hrep : replayGenTxs p DeliverTx gs v₀ ctx₁ with
      | panic msg st =>
        unfold InitChainer at h
        rw [hseed] at h
        dsimp only at h
        rw [hrep] at h
        simp [Outcome.isPanic] at h
      | ok vals ctx₂ =>
        have hinit := InitChainer_of_reached p ctx DeliverTx req gs v₀ vals ctx₁ ctx₂ hseed hrep
        cases hchk : sanityCheck req.Validators vals ctx₂ with
        | panic msg st =>
          rw [hinit, hchk] at h
          simp [Outcome.isPanic] at h
        | ok vals₃ ctx₃ =>
          rw [hchk] at hinit
          obtain ⟨g, -, -, -, -, hlog₁⟩ := seedGenesis_ok_inv p req ctx gs v₀ ctx₁ hseed
          have hg₂ := replayGenTxs_grow p DeliverTx gs v₀ ctx₁
          rw [hrep] at hg₂
          have hg₃ := sanityCheck_grow req.Validators vals ctx₂
          rw [hchk] at hg₃
          obtain ⟨mid, hlog₃, -, hmid⟩ := Grow.trans 8 10 hg₂ hg₃ (by intro x y; omega)
            (by omega) (by omega)
          have hlog₃' : ctx₃.log = ctx₁.log ++ mid := hlog₃
          refine ⟨gs, (gs.Accounts.enumFrom ctx.nextAccountNumber).map (fun kg =>
            Event.setAccount { p.ToAccount kg.2 with AccountNumber := (kg.1 : Int) }),
            mid, ?_, ?_, ?_⟩
          · refine @List.append_cancel_left _ ctx.log _ _ ?_
            rw [← hlog, hinit]
            simp only [Outcome.state, finishGenesis, State.push, hlog₃', hlog₁,
              loadAccounts_log, List.append_assoc]
            rfl
          · intro e he
            obtain ⟨x, -, rfl⟩ := List.mem_map.mp he
            rfl
          · intro e he
            have := hmid e he
            omega

/-- The run of the concrete scenario returns; the run with the rejected transaction `[9]`
panics and its log holds no call of the service, arbitration or guardian genesis. -/
theorem C9_genesis_step_order_witness :
    ∃ evs : List Event,
      (InitChainer demo freshState demoDeliverTx
        { AppStateBytes := [2, 5, 2, 7, 9, 8], Validators := [] }).state.log =
        freshState.log ++ evs ∧
      evs.Pairwise StepOrder ∧ ∀ e ∈ evs, e.step < 10 := by
  obtain ⟨evs, hlog, hp, -, hpanic, -⟩ := C9_genesis_step_order demo freshState demoDeliverTx
    { AppStateBytes := [2, 5, 2, 7, 9, 8], Validators := [] }
  exact ⟨evs, hlog, hp, hpanic rfl⟩

end protocol

namespace coinswap

/-- C10. For a keeper whose `GetParams` returns what `SetParams` last stored: when the
genesis state passes `ValidateGenesis`, `InitGenesis` on a fresh store returns, `ExportGenesis`
of the store it leaves is the genesis state that went in, and `InitGenesis` of that export on
another fresh store returns and exports the same state again; when the genesis state fails
`ValidateGenesis`, `InitGenesis` panics with the store as it was, no params stored. -/
theorem C10_coinswap_genesis_round_trip {Store Params : Type}
    (ValidateParams : Params → Option String) (k : Keeper Store Params)
    (hk : ∀ (ctx : Store) (params : Params), k.GetParams (k.SetParams ctx params) = params)
    (fresh fresh' : Store) (data : GenesisState Params) :
    (ValidateGenesis ValidateParams data = none →
      ∃ ctx₁ ctx₂ : Store,
        InitGenesis ValidateParams fresh k data = .done ctx₁ ∧
        ExportGenesis ctx₁ k = data ∧
        InitGenesis ValidateParams fresh' k (ExportGenesis ctx₁ k) = .done ctx₂ ∧
        ExportGenesis ctx₂ k = ExportGenesis ctx₁ k) ∧
    (∀ err : String, ValidateGenesis ValidateParams data = some err →
      InitGenesis ValidateParams fresh k data =
        .panic ("panic for ValidateGenesis," ++ err) fresh) := by
  constructor
  · intro hvalid
    have hexp : ExportGenesis (k.SetParams fresh data.Params) k = data := by
      simp [ExportGenesis, NewGenesisState, hk]
    refine ⟨k.SetParams fresh data.Params, k.SetParams fresh' data.Params, ?_, hexp, ?_, ?_⟩
    · simp [InitGenesis, hvalid]
    · rw [hexp]
      simp [InitGenesis, hvalid]
    · simp [ExportGenesis, NewGenesisState, hk]
  · intro err herr
    simp [InitGenesis, herr]

/-- The keeper of the examples returns what was last stored; the params 3 pass the
validation and come back from the export after the import into the empty store; the params 0
fail the validation and `InitGenesis` panics with the store still empty. -/
theorem C10_coinswap_genesis_round_trip_witness :
    (∀ (ctx : Option Nat) (params : Nat),
      demoKeeper.GetParams (demoKeeper.SetParams ctx params) = params) ∧
    ValidateGenesis demoValidateParams { Params := 3 } = none ∧
    (∃ ctx₁ ctx₂ : Option Nat,
      InitGenesis demoValidateParams none demoKeeper { Params := 3 } = .done ctx₁ ∧
      ExportGenesis ctx₁ demoKeeper = { Params := 3 } ∧
      InitGenesis demoValidateParams none demoKeeper (ExportGenesis ctx₁ demoKeeper) =
        .done ctx₂ ∧
      ExportGenesis ctx₂ demoKeeper = ExportGenesis ctx₁ demoKeeper) ∧
    InitGenesis demoValidateParams none demoKeeper { Params := 0 } =
      .panic ("panic for ValidateGenesis," ++ "fee must be positive") none :=
  ⟨fun _ _ => rfl, rfl,
    (C10_coinswap_genesis_round_trip demoValidateParams demoKeeper (fun _ _ => rfl) none none
      { Params := 3 }).1 rfl,
    (C10_coinswap_genesis_round_trip demoValidateParams demoKeeper (fun _ _ => rfl) none none
      { Params := 0 }).2 "fee must be positive" rfl⟩

end coinswap
